import Mathlib

/-!
Verification development for the RetFiner dataset-loading utilities
(`RetFiner/utils/dataset_folder.py`).

The Python module is embedded shallowly:

* the file system is an oracle (`FS`) supplying `os.scandir` results,
  `os.path.isdir` answers and `os.walk` listings (a walk listing is the
  list of `(root, filenames)` entries; directory names of a triple are
  irrelevant to the code, which only joins `root` with each filename);
* Python's `sorted` builtin is modelled by a stable insertion sort
  (`sortBy`) over an executable code-point lexicographic comparison,
  which agrees with Python string and tuple comparison on the keys the
  code sorts (strings, and walk entries compared first by root);
* numeric arrays are flattened lists of exact rationals together with a
  dimension count (`Arr`); `np.load` / `io.imread` are oracles;
* exceptions are `Except String`, the `__getitem__` retry loop gets
  explicit fuel and an explicit stream of `random.randint` draws;
* `os.path.expanduser` is the identity (paths without `~`).
-/

/-! ### Code-point lexicographic comparisons (model of Python `<`/`sorted` keys) -/

/-- Non-strict lexicographic comparison of lists, parametrised by a strict
comparison on elements.  Mirrors Python's sequence comparison. -/
def lexLe {α : Type} [DecidableEq α] (lt : α → α → Bool) : List α → List α → Bool
  | [], _ => true
  | _ :: _, [] => false
  | a :: as, b :: bs => if a = b then lexLe lt as bs else lt a b

/-- Strict lexicographic comparison of lists. -/
def lexLt {α : Type} [DecidableEq α] (lt : α → α → Bool) : List α → List α → Bool
  | [], [] => false
  | [], _ :: _ => true
  | _ :: _, [] => false
  | a :: as, b :: bs => if a = b then lexLt lt as bs else lt a b

/-- Strict comparison of characters by code point, as Python compares them. -/
def charLt (a b : Char) : Bool := decide (a < b)

/-- Python `s1 <= s2` on strings: code-point lexicographic order. -/
def strLe (a b : String) : Bool := lexLe charLt a.data b.data

/-- Python `s1 < s2` on strings. -/
def strLt (a b : String) : Bool := lexLt charLt a.data b.data

/-- Python `<=` on lists of strings (lexicographic over string `<`). -/
def strListLe (as bs : List String) : Bool := lexLe strLt as bs

/-- Python `<=` on `os.walk` entries `(root, filenames)`: tuples compare
componentwise, root first.  (Real walk entries have pairwise distinct
roots, so the filename component never actually decides.) -/
def entryLe (a b : String × List String) : Bool :=
  if a.1 = b.1 then strListLe a.2 b.2 else strLt a.1 b.1

/-! ### Python `sorted` -/

/-- Insert into a sorted list, before the first element not below `a`. -/
def insertSorted {α : Type} (le : α → α → Bool) (a : α) : List α → List α
  | [] => [a]
  | b :: bs => if le a b then a :: b :: bs else b :: insertSorted le a bs

/-- Model of Python's `sorted(...)`: a stable comparison sort.  On the
antisymmetric keys used in this file it agrees with any sort. -/
def sortBy {α : Type} (le : α → α → Bool) : List α → List α
  | [] => []
  | a :: as => insertSorted le a (sortBy le as)

/-! ### Path and string helpers used by the module -/

/-- `os.path.join(a, b)` for a relative second component. -/
def pathJoin (a b : String) : String := a ++ "/" ++ b

/-- Python `str.lower` (sufficient for ASCII extensions). -/
def strLower (s : String) : String := ⟨s.data.map Char.toLower⟩

/-- Character-list version of `startswith`. -/
def charsPre : List Char → List Char → Bool
  | [], _ => true
  | _ :: _, [] => false
  | a :: as, b :: bs => a == b && charsPre as bs

/-- Python `s.endswith(pat)`. -/
def endsW (s pat : String) : Bool := charsPre pat.data.reverse s.data.reverse

/-- Python `needle in hay` for strings (substring test). -/
def charsSub (needle : List Char) : List Char → Bool
  | [] => charsPre needle []
  | hay@(_ :: rest) => charsPre needle hay || charsSub needle rest

/-- Python `needle in hay` for strings. -/
def strIn (needle hay : String) : Bool := charsSub needle.data hay.data

/-- Final path component (`pathlib.PurePath.name` for plain paths). -/
def lastComp (cs : List Char) : List Char :=
  (cs.reverse.takeWhile (fun c => c != '/')).reverse

/-- `pathlib.Path(p).stem`: the final component minus its last suffix;
a leading or trailing dot does not count as a suffix separator. -/
def stem (p : String) : String :=
  let name := lastComp p.data
  match name.reverse.findIdx? (fun c => c == '.') with
  | none => ⟨name⟩
  | some j =>
    let i := name.length - 1 - j
    if 0 < i ∧ i < name.length - 1 then ⟨name.take i⟩ else ⟨name⟩

/-! ### The file-system oracle -/

/-- Oracle for the parts of `os` the module consults.  `scandir dir` is the
list of immediate subdirectory names of `dir` (in scan order), `walk dir`
the list of `(root, filenames)` entries produced by `os.walk(dir)` (in
traversal order). -/
structure FS where
  scandir : String → List String
  isdir : String → Bool
  walk : String → List (String × List String)

/-! ### `has_file_allowed_extension` and validity resolution -/

/-- `has_file_allowed_extension(filename, extensions)`. -/
def has_file_allowed_extension (filename : String) (extensions : List String) : Bool :=
  extensions.any (fun ext => endsW (strLower filename) ext)

/-- The supported extensions tuple `IMG_EXTENSIONS`. -/
def IMG_EXTENSIONS : List String :=
  [".jpg", ".jpeg", ".png", ".ppm", ".bmp", ".pgm", ".tif", ".tiff", ".webp",
   ".jpx", ".npy", ".npz"]

/-- `is_image_file(filename)`. -/
def is_image_file (filename : String) : Bool :=
  has_file_allowed_extension filename IMG_EXTENSIONS

/-- The shared `extensions` / `is_valid_file` resolution at the top of
`make_dataset` and `make_nonclass_dataset`: exactly one of the two must
be given, otherwise `ValueError`. -/
def resolveValid (extensions : Option (List String))
    (isValidFile : Option (String → Bool)) : Except String (String → Bool) :=
  match extensions, isValidFile with
  | none, none =>
    .error "Both extensions and is_valid_file cannot be None or not None at the same time"
  | some _, some _ =>
    .error "Both extensions and is_valid_file cannot be None or not None at the same time"
  | some exts, none => .ok (fun x => has_file_allowed_extension x exts)
  | none, some f => .ok f

/-! ### `args` -/

/-- The fields of the external `args` object that the module reads. -/
structure Args where
  fsids : Option (List String)
  three_d : Bool
  mapping : List (ℚ × ℚ)

/-! ### `make_nonclass_dataset` and `make_dataset` -/

/-- `make_nonclass_dataset(directory, args, extensions, is_valid_file)`:
walk the directory in sorted order, keep valid files (restricted to
`args.fsids` stems when that is set), label everything `0`.  The
`assert os.path.isdir(target_dir)` is the `AssertionError` case. -/
def make_nonclass_dataset (fs : FS) (directory : String) (args : Args)
    (extensions : Option (List String)) (isValidFile : Option (String → Bool)) :
    Except String (List (String × Nat)) :=
  match resolveValid extensions isValidFile with
  | .error e => .error e
  | .ok valid =>
    if fs.isdir directory then
      .ok ((sortBy entryLe (fs.walk directory)).flatMap fun e =>
        (sortBy strLe e.2).filterMap fun fname =>
          let path := pathJoin e.1 fname
          if valid path then
            match args.fsids with
            | some ids => if ids.contains (stem path) then some (path, 0) else none
            | none => some (path, 0)
          else none)
    else .error ("AssertionError: not a directory: " ++ directory)

/-- The valid file paths contributed by one class directory of
`make_dataset`: the two inner loops (`sorted(os.walk(target_dir))`, then
`sorted(fnames)`), with `os.path.join(root, fname)` filtered by validity. -/
def classFiles (fs : FS) (valid : String → Bool) (target_dir : String) : List String :=
  (sortBy entryLe (fs.walk target_dir)).flatMap fun e =>
    (sortBy strLe e.2).filterMap fun fname =>
      let path := pathJoin e.1 fname
      if valid path then some path else none

/-- `make_dataset(directory, class_to_idx, extensions, is_valid_file)`:
iterate the class names in sorted order, skip non-directories, and pair
every valid file of a class with that class's index.  The dictionary
`class_to_idx` is an association list; its keys always contain every
sorted key, so the `none` lookup branch is unreachable. -/
def make_dataset (fs : FS) (directory : String) (class_to_idx : List (String × Nat))
    (extensions : Option (List String)) (isValidFile : Option (String → Bool)) :
    Except String (List (String × Nat)) :=
  match resolveValid extensions isValidFile with
  | .error e => .error e
  | .ok valid =>
    .ok ((sortBy strLe (class_to_idx.map Prod.fst)).flatMap fun target_class =>
      match class_to_idx.lookup target_class with
      | none => []
      | some class_index =>
        let target_dir := pathJoin directory target_class
        if fs.isdir target_dir then
          (classFiles fs valid target_dir).map (fun path => (path, class_index))
        else [])

/-! ### `DatasetFolder` -/

/-- `DatasetFolder._find_classes(dir)` applied to the scan listing of
`dir`: sort the subdirectory names and enumerate them. -/
def find_classes (dirs : List String) : List String × List (String × Nat) :=
  let classes := sortBy strLe dirs
  (classes, classes.enum.map fun p => (p.2, p.1))

/-- The attributes a successfully constructed `DatasetFolder` carries. -/
structure DatasetFolderS where
  classes : List String
  class_to_idx : List (String × Nat)
  samples : List (String × Nat)
  targets : List Nat

/-- `",".join(extensions)`. -/
def joinComma : List String → String
  | [] => ""
  | [x] => x
  | x :: xs => x ++ "," ++ joinComma xs

/-- `DatasetFolder.__init__`: find the classes, build the samples, raise
`RuntimeError` when no sample was found. -/
def DatasetFolder.init (fs : FS) (root : String) (extensions : Option (List String))
    (isValidFile : Option (String → Bool)) : Except String DatasetFolderS :=
  let fc := find_classes (fs.scandir root)
  match make_dataset fs root fc.2 extensions isValidFile with
  | .error e => .error e
  | .ok samples =>
    if samples.length = 0 then
      .error ("Found 0 logs in subfolders of: " ++ root ++ "\n" ++
        (match extensions with
         | some exts => "Supported extensions are: " ++ joinComma exts
         | none => ""))
    else .ok ⟨fc.1, fc.2, samples, samples.map Prod.snd⟩

/-- The body of the `try` block of `DatasetFolder.__getitem__`: index the
sample list and run the loader; either step can raise. -/
def tryLoad {α : Type} (samples : List (String × Nat)) (loader : String → Except String α)
    (index : Nat) : Except String (α × Nat) :=
  match samples.get? index with
  | none => .error "IndexError: list index out of range"
  | some (path, target) =>
    match loader path with
    | .error e => .error e
    | .ok sample => .ok (sample, target)

/-- The `while True` retry loop of `DatasetFolder.__getitem__` with explicit
fuel and an explicit stream of `random.randint(0, len(samples) - 1)` draws
(a draw `r` stands for the value `r % samples.length`).  `none` means the
loop was still running when fuel or the modelled draws ran out. -/
def getitemLoop {α : Type} (samples : List (String × Nat))
    (loader : String → Except String α) : Nat → Nat → List Nat → Option (α × Nat)
  | 0, _, _ => none
  | fuel + 1, index, rng =>
    match tryLoad samples loader index with
    | .ok r => some r
    | .error _ =>
      match rng with
      | [] => none
      | r :: rng' => getitemLoop samples loader fuel (r % samples.length) rng'

/-- Apply an optional transform. -/
def applyOpt {α : Type} (f : Option (α → α)) (x : α) : α :=
  match f with
  | some g => g x
  | none => x

/-- `DatasetFolder.__getitem__`: the retry loop followed by the optional
`transform` / `target_transform`. -/
def DatasetFolder.getitem {α : Type} (samples : List (String × Nat))
    (loader : String → Except String α) (transform : Option (α → α))
    (target_transform : Option (Nat → Nat)) (fuel index : Nat) (rng : List Nat) :
    Option (α × Nat) :=
  (getitemLoop samples loader fuel index rng).map fun r =>
    (applyOpt transform r.1, applyOpt target_transform r.2)

/-! ### `normalize_to_0_1` -/

/-- `np.min` over a flattened array (`np.min` of an empty array raises;
the value at `[]` is an arbitrary total-function default). -/
def npMin : List ℚ → ℚ
  | [] => 0
  | x :: xs => xs.foldl min x

/-- `np.max` over a flattened array. -/
def npMax : List ℚ → ℚ
  | [] => 0
  | x :: xs => xs.foldl max x

/-- `normalize_to_0_1(sample) = (sample - np.min(sample)) / (np.max(sample) - np.min(sample))`
elementwise, over exact rationals. -/
def normalize_to_0_1 (sample : List ℚ) : List ℚ :=
  sample.map fun x => (x - npMin sample) / (npMax sample - npMin sample)

/-! ### `MultiTaskDatasetFolder` -/

/-- A numeric array: its number of dimensions and its flattened values. -/
structure Arr where
  ndim : Nat
  vals : List ℚ
deriving DecidableEq

/-- Oracles for the array loaders of `MultiTaskDatasetFolder.__getitem__`:
`np.load(path)['layer_maps']`, `np.load(path)` and `skimage.io.imread(path)`. -/
structure LoadEnv where
  nploadLayerMaps : String → Except String Arr
  npload : String → Except String Arr
  imread : String → Except String Arr

/-- `numpy` truncation to integer (`astype(int)` rounds toward zero). -/
def truncQ (q : ℚ) : ℚ :=
  if q < 0 then -((Rat.floor (-q) : ℤ) : ℚ) else ((Rat.floor q : ℤ) : ℚ)

/-- `.astype(int)` on an array. -/
def astypeInt (a : Arr) : Arr := ⟨a.ndim, a.vals.map truncQ⟩

/-- `.astype(np.float32) / 255.0` (exact in rationals). -/
def scaleDiv255 (a : Arr) : Arr := ⟨a.ndim, a.vals.map (fun q => q / 255)⟩

/-- The semantic-segmentation relabelling loop
`for label, i in args.mapping.items(): sample[sample == label] = i`,
applied sequentially as in the source. -/
def applyMapping (mapping : List (ℚ × ℚ)) (vals : List ℚ) : List ℚ :=
  mapping.foldl (fun vs p => vs.map fun x => if x = p.1 then p.2 else x) vals

/-- The per-task sample loading of `MultiTaskDatasetFolder.__getitem__`:
`.npy`/`.npz` files go through `np.load` (with the `layermaps` /
`bscanlayermap` integer variants, and the 2-d-to-3-d reshape under
`args.three_d` for `slo` / `bscan`), everything else through
`io.imread` followed by relabelling (`semseg` tasks) or
`normalize_to_0_1`.  A reshape only changes `ndim`. -/
def loadTaskSample (env : LoadEnv) (args : Args) (task path : String) :
    Except String Arr :=
  if endsW path ".npy" || endsW path ".npz" then
    match
      (if task = "layermaps" then (env.nploadLayerMaps path).map astypeInt
       else if task = "bscanlayermap" then (env.npload path).map astypeInt
       else (env.npload path).map scaleDiv255)
    with
    | .error e => .error e
    | .ok sample =>
      if sample.ndim = 2 ∧ args.three_d then
        if task = "slo" then .ok ⟨3, sample.vals⟩
        else if task = "bscan" then .ok ⟨3, sample.vals⟩
        else .error ("Unknown task " ++ task)
      else .ok sample
  else
    match env.imread path with
    | .error e => .error e
    | .ok sample =>
      if strIn "semseg" task then .ok ⟨sample.ndim, applyMapping args.mapping sample.vals⟩
      else .ok ⟨sample.ndim, normalize_to_0_1 sample.vals⟩

/-- Python dictionary assignment `d[k] = v` on an association list:
replace in place when the key exists, append otherwise. -/
def dictSet (d : List (String × Arr)) (k : String) (v : Arr) : List (String × Arr) :=
  if (d.lookup k).isSome then d.map (fun p => if p.1 = k then (k, v) else p)
  else d ++ [(k, v)]

/-- The mutable state a `MultiTaskDatasetFolder` instance carries across
`__getitem__` calls: `self.cache` and `self.ids`. -/
structure MTState where
  cache : List (Nat × (List (String × Arr) × Option Nat))
  ids : List (Nat × String)
deriving DecidableEq

/-- The `for task in self.tasks` loop of `MultiTaskDatasetFolder.__getitem__`
on a cache miss: index every task's sample list at the same shared `index`,
load the sample, store it under the task key, remember the first stem in
`ids`; the loop body raises on a bad index or a failing load. -/
def mtLoadLoop (env : LoadEnv) (args : Args) (samples : String → List (String × Nat))
    (index : Nat) :
    List String → List (String × Arr) → Option Nat → List (Nat × String) →
    Except String (List (String × Arr) × Option Nat × List (Nat × String))
  | [], sample_dict, target, ids => .ok (sample_dict, target, ids)
  | task :: rest, sample_dict, _, ids =>
    match (samples task).get? index with
    | none => .error "IndexError: list index out of range"
    | some (path, tgt) =>
      match loadTaskSample env args task path with
      | .error e => .error e
      | .ok sample =>
        mtLoadLoop env args samples index rest (dictSet sample_dict task sample)
          (some tgt)
          (if (ids.lookup index).isSome then ids else ids ++ [(index, stem path)])

/-- `MultiTaskDatasetFolder.__getitem__`: serve from `self.cache` when the
index is present (it never is, since nothing writes the cache), otherwise
run the task loop; then apply the optional transforms and return
`(sample_dict, target, self.ids[index])` together with the state after the
call.  The missing-`ids` entry case is Python's `KeyError`. -/
def mtGetitem (env : LoadEnv) (args : Args) (tasks : List String)
    (samples : String → List (String × Nat))
    (transform : Option (List (String × Arr) → List (String × Arr)))
    (target_transform : Option (Nat → Nat)) (st : MTState) (index : Nat) :
    Except String ((List (String × Arr) × Option Nat × String) × MTState) :=
  match
    (match st.cache.lookup index with
     | some c => Except.ok (c.1, c.2, st.ids)
     | none => mtLoadLoop env args samples index tasks [] none st.ids)
  with
  | .error e => .error e
  | .ok (sample_dict, target, ids') =>
    let sample_dict := applyOpt transform sample_dict
    let target := match target_transform with
      | some f => target.map f
      | none => target
    match ids'.lookup index with
    | none => .error "KeyError"
    | some sid => .ok ((sample_dict, target, sid), ⟨st.cache, ids'⟩)

/-- A successfully constructed `MultiTaskDatasetFolder`: the task list, the
per-task sample lists (an association list in task order, like the Python
dict in insertion order), and the instance state. -/
structure MTDataset where
  tasks : List String
  samples : List (String × List (String × Nat))
  st : MTState

/-- The dict comprehension of `MultiTaskDatasetFolder.__init__`: evaluate
the per-task builder left to right, propagating the first exception. -/
def mapTasks {β : Type} (f : String → Except String β) :
    List String → Except String (List β)
  | [] => .ok []
  | t :: ts =>
    match f t with
    | .error e => .error e
    | .ok r =>
      match mapTasks f ts with
      | .error e => .error e
      | .ok rs => .ok (r :: rs)

/-- The list comprehension `[samples[i] for i in permutation]`, raising
`IndexError` on an out-of-range index. -/
def gather (l : List (String × Nat)) : List Nat → Option (List (String × Nat))
  | [] => some []
  | i :: is =>
    match l.get? i with
    | none => none
    | some x => (gather l is).map (fun ys => x :: ys)

/-- One entry of the samples dict comprehension of
`MultiTaskDatasetFolder.__init__`: the task's sample list built by
`make_nonclass_dataset` over `root/{prefixes[task]}{task}`. -/
def taskBuilder (fs : FS) (root : String) (args : Args)
    (extensions : Option (List String)) (isValidFile : Option (String → Bool))
    (prefixes : List (String × String)) (task : String) :
    Except String (String × List (String × Nat)) :=
  match make_nonclass_dataset fs
      (pathJoin root (((prefixes.lookup task).getD "") ++ task)) args
      extensions isValidFile with
  | .error e => .error e
  | .ok l => .ok (task, l)

/-- `MultiTaskDatasetFolder.__init__`: build every task's sample list with
`make_nonclass_dataset` over `root/{prefixes[task]}{task}`, raise
`RuntimeError` when any of them is empty, optionally select a random
subset of `max_images` samples (the permutation of `np.random` is an
oracle), and start with an empty cache and empty ids. -/
def MultiTask.init (fs : FS) (root : String) (tasks : List String) (args : Args)
    (extensions : Option (List String)) (isValidFile : Option (String → Bool))
    (prefixes : List (String × String)) (maxImages : Option Nat)
    (perm : Nat → List Nat) : Except String MTDataset :=
  match mapTasks (taskBuilder fs root args extensions isValidFile prefixes) tasks with
  | .error e => .error e
  | .ok rawSamples =>
    match rawSamples.find? (fun p => p.2.isEmpty) with
    | some p => .error ("Found 0 logs in subfolders of: " ++ pathJoin root p.1 ++ "\n" ++
        (match extensions with
         | some exts => "Supported extensions are: " ++ joinComma exts
         | none => ""))
    | none =>
      match maxImages with
      | none => .ok ⟨tasks, rawSamples, ⟨[], []⟩⟩
      | some m =>
        match rawSamples with
        | [] => .error "IndexError: list index out of range"
        | p :: _ =>
          let permutation := perm p.2.length
          match mapTasks (fun task =>
              match rawSamples.lookup task with
              | none => Except.error "KeyError"
              | some l =>
                match gather l permutation with
                | none => Except.error "IndexError: list index out of range"
                | some sel => Except.ok (task, sel.take m)) tasks with
          | .error e => .error e
          | .ok subs => .ok ⟨tasks, subs, ⟨[], []⟩⟩

/-- `MultiTaskDatasetFolder.__len__`: the length of the first entry of the
samples dict (`len(list(self.samples.values())[0])`); the empty-dict case
is an `IndexError` in Python and an arbitrary default here. -/
def mtLen (d : MTDataset) : Nat :=
  match d.samples with
  | [] => 0
  | p :: _ => p.2.length

/-! ### Order facts about the comparison functions -/

theorem lexLe_refl {α : Type} [DecidableEq α] (lt : α → α → Bool) :
    ∀ l : List α, lexLe lt l l = true
  | [] => rfl
  | a :: as => by simp [lexLe, lexLe_refl lt as]

theorem lexLe_trans {α : Type} [DecidableEq α] {lt : α → α → Bool}
    (htrans : ∀ x y z, lt x y = true → lt y z = true → lt x z = true)
    (hasymm : ∀ x y, lt x y = true → lt y x = true → False) :
    ∀ l₁ l₂ l₃ : List α, lexLe lt l₁ l₂ = true → lexLe lt l₂ l₃ = true →
      lexLe lt l₁ l₃ = true
  | [], _, _, _, _ => rfl
  | _ :: _, [], _, h₁, _ => by simp [lexLe] at h₁
  | _ :: _, _ :: _, [], _, h₂ => by simp [lexLe] at h₂
  | a :: as, b :: bs, c :: cs, h₁, h₂ => by
    by_cases hab : a = b <;> by_cases hbc : b = c
    · subst hab; subst hbc
      rw [lexLe, if_pos rfl] at h₁ h₂ ⊢
      exact lexLe_trans htrans hasymm as bs cs h₁ h₂
    · subst hab
      rw [lexLe, if_pos rfl] at h₁
      rw [lexLe, if_neg hbc] at h₂
      rw [lexLe, if_neg hbc]
      exact h₂
    · subst hbc
      rw [lexLe, if_neg hab] at h₁
      rw [lexLe, if_neg hab]
      exact h₁
    · rw [lexLe, if_neg hab] at h₁
      rw [lexLe, if_neg hbc] at h₂
      have hac : a ≠ c := by
        rintro rfl
        exact hasymm a b h₁ h₂
      rw [lexLe, if_neg hac]
      exact htrans a b c h₁ h₂

theorem lexLe_total {α : Type} [DecidableEq α] {lt : α → α → Bool}
    (htotal : ∀ x y : α, x ≠ y → lt x y = true ∨ lt y x = true) :
    ∀ l₁ l₂ : List α, lexLe lt l₁ l₂ = true ∨ lexLe lt l₂ l₁ = true
  | [], _ => Or.inl rfl
  | _ :: _, [] => Or.inr rfl
  | a :: as, b :: bs => by
    by_cases hab : a = b
    · subst hab
      rw [lexLe, if_pos rfl, lexLe, if_pos rfl]
      exact lexLe_total htotal as bs
    · rw [lexLe, if_neg hab, lexLe, if_neg (Ne.symm hab)]
      exact htotal a b hab

theorem lexLe_antisymm {α : Type} [DecidableEq α] {lt : α → α → Bool}
    (hasymm : ∀ x y, lt x y = true → lt y x = true → False) :
    ∀ l₁ l₂ : List α, lexLe lt l₁ l₂ = true → lexLe lt l₂ l₁ = true → l₁ = l₂
  | [], [], _, _ => rfl
  | [], _ :: _, _, h₂ => by simp [lexLe] at h₂
  | _ :: _, [], h₁, _ => by simp [lexLe] at h₁
  | a :: as, b :: bs, h₁, h₂ => by
    by_cases hab : a = b
    · subst hab
      rw [lexLe, if_pos rfl] at h₁ h₂
      rw [lexLe_antisymm hasymm as bs h₁ h₂]
    · rw [lexLe, if_neg hab] at h₁
      rw [lexLe, if_neg (Ne.symm hab)] at h₂
      exact (hasymm a b h₁ h₂).elim

theorem lexLt_asymm {α : Type} [DecidableEq α] {lt : α → α → Bool}
    (hasymm : ∀ x y, lt x y = true → lt y x = true → False) :
    ∀ l₁ l₂ : List α, lexLt lt l₁ l₂ = true → lexLt lt l₂ l₁ = true → False
  | [], [], h₁, _ => by simp [lexLt] at h₁
  | [], _ :: _, _, h₂ => by simp [lexLt] at h₂
  | _ :: _, [], h₁, _ => by simp [lexLt] at h₁
  | a :: as, b :: bs, h₁, h₂ => by
    by_cases hab : a = b
    · subst hab
      rw [lexLt, if_pos rfl] at h₁ h₂
      exact lexLt_asymm hasymm as bs h₁ h₂
    · rw [lexLt, if_neg hab] at h₁
      rw [lexLt, if_neg (Ne.symm hab)] at h₂
      exact hasymm a b h₁ h₂

theorem lexLt_trans {α : Type} [DecidableEq α] {lt : α → α → Bool}
    (htrans : ∀ x y z, lt x y = true → lt y z = true → lt x z = true)
    (hasymm : ∀ x y, lt x y = true → lt y x = true → False) :
    ∀ l₁ l₂ l₃ : List α, lexLt lt l₁ l₂ = true → lexLt lt l₂ l₃ = true →
      lexLt lt l₁ l₃ = true
  | [], [], _, h₁, _ => by simp [lexLt] at h₁
  | [], _ :: _, [], _, h₂ => by simp [lexLt] at h₂
  | [], _ :: _, _ :: _, _, _ => rfl
  | _ :: _, [], _, h₁, _ => by simp [lexLt] at h₁
  | _ :: _, _ :: _, [], _, h₂ => by simp [lexLt] at h₂
  | a :: as, b :: bs, c :: cs, h₁, h₂ => by
    by_cases hab : a = b <;> by_cases hbc : b = c
    · subst hab; subst hbc
      rw [lexLt, if_pos rfl] at h₁ h₂ ⊢
      exact lexLt_trans htrans hasymm as bs cs h₁ h₂
    · subst hab
      rw [lexLt, if_pos rfl] at h₁
      rw [lexLt, if_neg hbc] at h₂ ⊢
      exact h₂
    · subst hbc
      rw [lexLt, if_neg hab] at h₁ ⊢
      exact h₁
    · rw [lexLt, if_neg hab] at h₁
      rw [lexLt, if_neg hbc] at h₂
      have hac : a ≠ c := by
        rintro rfl
        exact hasymm a b h₁ h₂
      rw [lexLt, if_neg hac]
      exact htrans a b c h₁ h₂

theorem lexLt_total {α : Type} [DecidableEq α] {lt : α → α → Bool}
    (htotal : ∀ x y : α, x ≠ y → lt x y = true ∨ lt y x = true) :
    ∀ l₁ l₂ : List α, l₁ ≠ l₂ → lexLt lt l₁ l₂ = true ∨ lexLt lt l₂ l₁ = true
  | [], [], h => absurd rfl h
  | [], _ :: _, _ => Or.inl rfl
  | _ :: _, [], _ => Or.inr rfl
  | a :: as, b :: bs, h => by
    by_cases hab : a = b
    · subst hab
      rw [lexLt, if_pos rfl, lexLt, if_pos rfl]
      exact lexLt_total htotal as bs (fun he => h (by rw [he]))
    · rw [lexLt, if_neg hab, lexLt, if_neg (Ne.symm hab)]
      exact htotal a b hab

theorem lexLt_of_lexLe_of_ne {α : Type} [DecidableEq α] {lt : α → α → Bool} :
    ∀ l₁ l₂ : List α, lexLe lt l₁ l₂ = true → l₁ ≠ l₂ → lexLt lt l₁ l₂ = true
  | [], [], _, h => absurd rfl h
  | [], _ :: _, _, _ => rfl
  | _ :: _, [], h₁, _ => by simp [lexLe] at h₁
  | a :: as, b :: bs, h₁, h => by
    by_cases hab : a = b
    · subst hab
      rw [lexLe, if_pos rfl] at h₁
      rw [lexLt, if_pos rfl]
      exact lexLt_of_lexLe_of_ne as bs h₁ (fun he => h (by rw [he]))
    · rw [lexLe, if_neg hab] at h₁
      rw [lexLt, if_neg hab]
      exact h₁

theorem lexLe_append_same {α : Type} [DecidableEq α] {lt : α → α → Bool} :
    ∀ (c a b : List α), lexLe lt (c ++ a) (c ++ b) = lexLe lt a b
  | [], _, _ => rfl
  | x :: xs, a, b => by
    show lexLe lt (x :: (xs ++ a)) (x :: (xs ++ b)) = lexLe lt a b
    rw [lexLe, if_pos rfl, lexLe_append_same xs a b]

theorem charLt_trans : ∀ x y z : Char, charLt x y = true → charLt y z = true →
    charLt x z = true := fun _ _ _ h₁ h₂ =>
  decide_eq_true (lt_trans (of_decide_eq_true h₁) (of_decide_eq_true h₂))

theorem charLt_asymm : ∀ x y : Char, charLt x y = true → charLt y x = true → False :=
  fun _ _ h₁ h₂ => absurd (of_decide_eq_true h₂) (lt_asymm (of_decide_eq_true h₁))

theorem charLt_total : ∀ x y : Char, x ≠ y → charLt x y = true ∨ charLt y x = true :=
  fun _ _ h => (lt_or_gt_of_ne h).imp decide_eq_true decide_eq_true

theorem strData_inj {a b : String} (h : a.data = b.data) : a = b := by
  cases a; cases b; exact congrArg String.mk h

theorem strData_ne {a b : String} (h : a ≠ b) : a.data ≠ b.data :=
  fun he => h (strData_inj he)

theorem strLe_refl (a : String) : strLe a a = true := lexLe_refl charLt a.data

theorem strLe_trans : ∀ a b c : String, strLe a b = true → strLe b c = true →
    strLe a c = true :=
  fun a b c => lexLe_trans charLt_trans charLt_asymm a.data b.data c.data

theorem strLe_total : ∀ a b : String, strLe a b = true ∨ strLe b a = true :=
  fun a b => lexLe_total charLt_total a.data b.data

theorem strLe_antisymm : ∀ a b : String, strLe a b = true → strLe b a = true → a = b :=
  fun a b h₁ h₂ => strData_inj (lexLe_antisymm charLt_asymm a.data b.data h₁ h₂)

theorem strLt_trans : ∀ a b c : String, strLt a b = true → strLt b c = true →
    strLt a c = true :=
  fun a b c => lexLt_trans charLt_trans charLt_asymm a.data b.data c.data

theorem strLt_asymm : ∀ a b : String, strLt a b = true → strLt b a = true → False :=
  fun a b => lexLt_asymm charLt_asymm a.data b.data

theorem strLt_total : ∀ a b : String, a ≠ b → strLt a b = true ∨ strLt b a = true :=
  fun a b h => lexLt_total charLt_total a.data b.data (strData_ne h)

theorem strListLe_trans : ∀ u v w : List String, strListLe u v = true →
    strListLe v w = true → strListLe u w = true :=
  fun u v w => lexLe_trans strLt_trans strLt_asymm u v w

theorem strListLe_total : ∀ u v : List String,
    strListLe u v = true ∨ strListLe v u = true :=
  fun u v => lexLe_total strLt_total u v

theorem entryLe_trans : ∀ a b c : String × List String, entryLe a b = true →
    entryLe b c = true → entryLe a c = true := by
  intro a b c h₁ h₂
  by_cases hab : a.1 = b.1 <;> by_cases hbc : b.1 = c.1
  · rw [entryLe, if_pos hab] at h₁
    rw [entryLe, if_pos hbc] at h₂
    rw [entryLe, if_pos (hab.trans hbc)]
    exact strListLe_trans _ _ _ h₁ h₂
  · rw [entryLe, if_neg hbc] at h₂
    rw [entryLe, if_neg (fun he => hbc (hab.symm.trans he))]
    rw [hab]
    exact h₂
  · rw [entryLe, if_neg hab] at h₁
    rw [entryLe, if_neg (fun he => hab (he.trans hbc.symm))]
    rw [← hbc]
    exact h₁
  · rw [entryLe, if_neg hab] at h₁
    rw [entryLe, if_neg hbc] at h₂
    have hac : a.1 ≠ c.1 := by
      intro he
      rw [he] at h₁
      exact strLt_asymm _ _ h₂ h₁
    rw [entryLe, if_neg hac]
    exact strLt_trans _ _ _ h₁ h₂

theorem entryLe_total : ∀ a b : String × List String,
    entryLe a b = true ∨ entryLe b a = true := by
  intro a b
  by_cases hab : a.1 = b.1
  · rw [entryLe, if_pos hab, entryLe, if_pos hab.symm]
    exact strListLe_total _ _
  · rw [entryLe, if_neg hab, entryLe, if_neg (Ne.symm hab)]
    exact strLt_total _ _ hab

/-! ### Facts about `sortBy` -/

theorem insertSorted_perm {α : Type} (le : α → α → Bool) (a : α) :
    ∀ l : List α, (insertSorted le a l).Perm (a :: l)
  | [] => List.Perm.refl _
  | b :: bs => by
    rw [insertSorted]
    by_cases h : le a b = true
    · rw [if_pos h]
    · rw [if_neg h]
      exact (List.Perm.cons b (insertSorted_perm le a bs)).trans
        (List.Perm.swap a b bs)

theorem sortBy_perm {α : Type} (le : α → α → Bool) :
    ∀ l : List α, (sortBy le l).Perm l
  | [] => List.Perm.refl _
  | a :: as =>
    (insertSorted_perm le a (sortBy le as)).trans (List.Perm.cons a (sortBy_perm le as))

theorem mem_sortBy {α : Type} {le : α → α → Bool} {x : α} {l : List α} :
    x ∈ sortBy le l ↔ x ∈ l :=
  (sortBy_perm le l).mem_iff

theorem pairwise_insertSorted {α : Type} {le : α → α → Bool}
    (htot : ∀ x y, le x y = true ∨ le y x = true)
    (htrans : ∀ x y z, le x y = true → le y z = true → le x z = true) (a : α) :
    ∀ l : List α, l.Pairwise (fun x y => le x y = true) →
      (insertSorted le a l).Pairwise (fun x y => le x y = true)
  | [], _ => List.pairwise_cons.mpr ⟨fun x hx => absurd hx (List.not_mem_nil x), List.Pairwise.nil⟩
  | b :: bs, h => by
    rcases List.pairwise_cons.mp h with ⟨hb, hbs⟩
    rw [insertSorted]
    by_cases hab : le a b = true
    · rw [if_pos hab]
      refine List.pairwise_cons.mpr ⟨?_, h⟩
      intro x hx
      rcases List.mem_cons.mp hx with heq | hx
      · rw [heq]; exact hab
      · exact htrans a b x hab (hb x hx)
    · rw [if_neg hab]
      refine List.pairwise_cons.mpr ⟨?_, pairwise_insertSorted htot htrans a bs hbs⟩
      intro x hx
      rcases List.mem_cons.mp ((insertSorted_perm le a bs).mem_iff.mp hx) with rfl | hx
      · rcases htot x b with h' | h'
        · exact absurd h' hab
        · exact h'
      · exact hb x hx

theorem sortBy_sorted {α : Type} {le : α → α → Bool}
    (htot : ∀ x y, le x y = true ∨ le y x = true)
    (htrans : ∀ x y z, le x y = true → le y z = true → le x z = true) :
    ∀ l : List α, (sortBy le l).Pairwise (fun x y => le x y = true)
  | [] => List.Pairwise.nil
  | a :: as => pairwise_insertSorted htot htrans a (sortBy le as) (sortBy_sorted htot htrans as)

theorem sortBy_of_pairwise {α : Type} {le : α → α → Bool} :
    ∀ l : List α, l.Pairwise (fun x y => le x y = true) → sortBy le l = l
  | [], _ => rfl
  | a :: as, h => by
    rcases List.pairwise_cons.mp h with ⟨ha, has⟩
    rw [sortBy, sortBy_of_pairwise as has]
    cases as with
    | nil => rfl
    | cons b bs => rw [insertSorted, if_pos (ha b (List.mem_cons_self b bs))]

theorem sortBy_eq_of_perm {α : Type} {le : α → α → Bool}
    (htot : ∀ x y, le x y = true ∨ le y x = true)
    (htrans : ∀ x y z, le x y = true → le y z = true → le x z = true)
    (hanti : ∀ x y, le x y = true → le y x = true → x = y)
    {l₁ l₂ : List α} (h : l₁.Perm l₂) : sortBy le l₁ = sortBy le l₂ :=
  @List.eq_of_perm_of_sorted α (fun x y => le x y = true) ⟨hanti⟩ _ _
    ((sortBy_perm le l₁).trans (h.trans (sortBy_perm le l₂).symm))
    (sortBy_sorted htot htrans l₁) (sortBy_sorted htot htrans l₂)

/-! ### Facts about `npMin` / `npMax` -/

theorem foldl_min_le_init : ∀ (l : List ℚ) (a : ℚ), l.foldl min a ≤ a
  | [], _ => le_refl _
  | x :: xs, a => le_trans (foldl_min_le_init xs (min a x)) (min_le_left a x)

theorem foldl_min_le_mem : ∀ (l : List ℚ) (a : ℚ), ∀ x ∈ l, l.foldl min a ≤ x
  | [], _, x, hx => absurd hx (List.not_mem_nil x)
  | y :: ys, a, x, hx => by
    rcases List.mem_cons.mp hx with rfl | hx
    · exact le_trans (foldl_min_le_init ys (min a x)) (min_le_right a x)
    · exact foldl_min_le_mem ys (min a y) x hx

theorem foldl_min_mem : ∀ (l : List ℚ) (a : ℚ), l.foldl min a ∈ a :: l
  | [], _ => List.mem_cons_self _ _
  | x :: xs, a => by
    have h := foldl_min_mem xs (min a x)
    rcases List.mem_cons.mp h with he | hm
    · rw [List.foldl_cons, he]
      rcases min_choice a x with h' | h' <;> rw [h']
      · exact List.mem_cons_self _ _
      · exact List.mem_cons.mpr (Or.inr (List.mem_cons_self _ _))
    · exact List.mem_cons.mpr (Or.inr (List.mem_cons.mpr (Or.inr hm)))

theorem foldl_max_le_init : ∀ (l : List ℚ) (a : ℚ), a ≤ l.foldl max a
  | [], _ => le_refl _
  | x :: xs, a => le_trans (le_max_left a x) (foldl_max_le_init xs (max a x))

theorem foldl_max_le_mem : ∀ (l : List ℚ) (a : ℚ), ∀ x ∈ l, x ≤ l.foldl max a
  | [], _, x, hx => absurd hx (List.not_mem_nil x)
  | y :: ys, a, x, hx => by
    rcases List.mem_cons.mp hx with rfl | hx
    · exact le_trans (le_max_right a x) (foldl_max_le_init ys (max a x))
    · exact foldl_max_le_mem ys (max a y) x hx

theorem foldl_max_mem : ∀ (l : List ℚ) (a : ℚ), l.foldl max a ∈ a :: l
  | [], _ => List.mem_cons_self _ _
  | x :: xs, a => by
    have h := foldl_max_mem xs (max a x)
    rcases List.mem_cons.mp h with he | hm
    · rw [List.foldl_cons, he]
      rcases max_choice a x with h' | h' <;> rw [h']
      · exact List.mem_cons_self _ _
      · exact List.mem_cons.mpr (Or.inr (List.mem_cons_self _ _))
    · exact List.mem_cons.mpr (Or.inr (List.mem_cons.mpr (Or.inr hm)))

theorem npMin_le {l : List ℚ} : ∀ x ∈ l, npMin l ≤ x := by
  cases l with
  | nil => intro x hx; exact absurd hx (List.not_mem_nil x)
  | cons y ys =>
    intro x hx
    rcases List.mem_cons.mp hx with rfl | hx
    · exact foldl_min_le_init ys x
    · exact foldl_min_le_mem ys y x hx

theorem npMax_ge {l : List ℚ} : ∀ x ∈ l, x ≤ npMax l := by
  cases l with
  | nil => intro x hx; exact absurd hx (List.not_mem_nil x)
  | cons y ys =>
    intro x hx
    rcases List.mem_cons.mp hx with rfl | hx
    · exact foldl_max_le_init ys x
    · exact foldl_max_le_mem ys y x hx

theorem npMin_mem {l : List ℚ} (h : l ≠ []) : npMin l ∈ l := by
  cases l with
  | nil => exact absurd rfl h
  | cons y ys => exact foldl_min_mem ys y

theorem npMax_mem {l : List ℚ} (h : l ≠ []) : npMax l ∈ l := by
  cases l with
  | nil => exact absurd rfl h
  | cons y ys => exact foldl_max_mem ys y

theorem npMin_le_npMax : ∀ l : List ℚ, npMin l ≤ npMax l := by
  intro l
  cases l with
  | nil => exact le_refl 0
  | cons y ys => exact npMin_le _ (npMax_mem (List.cons_ne_nil y ys))

theorem monotone_map_min {f : ℚ → ℚ} (hf : Monotone f) (a b : ℚ) :
    f (min a b) = min (f a) (f b) := by
  rcases le_total a b with h | h
  · rw [min_eq_left h, min_eq_left (hf h)]
  · rw [min_eq_right h, min_eq_right (hf h)]

theorem monotone_map_max {f : ℚ → ℚ} (hf : Monotone f) (a b : ℚ) :
    f (max a b) = max (f a) (f b) := by
  rcases le_total a b with h | h
  · rw [max_eq_right h, max_eq_right (hf h)]
  · rw [max_eq_left h, max_eq_left (hf h)]

theorem foldl_min_map {f : ℚ → ℚ} (hf : Monotone f) :
    ∀ (l : List ℚ) (a : ℚ), (l.map f).foldl min (f a) = f (l.foldl min a)
  | [], _ => rfl
  | x :: xs, a => by
    rw [List.map_cons, List.foldl_cons, List.foldl_cons, ← monotone_map_min hf,
      foldl_min_map hf xs (min a x)]

theorem foldl_max_map {f : ℚ → ℚ} (hf : Monotone f) :
    ∀ (l : List ℚ) (a : ℚ), (l.map f).foldl max (f a) = f (l.foldl max a)
  | [], _ => rfl
  | x :: xs, a => by
    rw [List.map_cons, List.foldl_cons, List.foldl_cons, ← monotone_map_max hf,
      foldl_max_map hf xs (max a x)]

theorem npMin_map {f : ℚ → ℚ} (hf : Monotone f) {l : List ℚ} (h : l ≠ []) :
    npMin (l.map f) = f (npMin l) := by
  cases l with
  | nil => exact absurd rfl h
  | cons y ys => exact foldl_min_map hf ys y

theorem npMax_map {f : ℚ → ℚ} (hf : Monotone f) {l : List ℚ} (h : l ≠ []) :
    npMax (l.map f) = f (npMax l) := by
  cases l with
  | nil => exact absurd rfl h
  | cons y ys => exact foldl_max_map hf ys y

theorem foldl_min_replicate (c : ℚ) : ∀ n : Nat, (List.replicate n c).foldl min c = c
  | 0 => rfl
  | n + 1 => by rw [List.replicate_succ, List.foldl_cons, min_self, foldl_min_replicate c n]

theorem foldl_max_replicate (c : ℚ) : ∀ n : Nat, (List.replicate n c).foldl max c = c
  | 0 => rfl
  | n + 1 => by rw [List.replicate_succ, List.foldl_cons, max_self, foldl_max_replicate c n]

/-! ### Generic list helpers -/

theorem flatMap_congr {α β : Type} {f g : α → List β} :
    ∀ l : List α, (∀ x ∈ l, f x = g x) → l.flatMap f = l.flatMap g
  | [], _ => rfl
  | a :: as, h => by
    rw [List.flatMap_cons, List.flatMap_cons, h a (List.mem_cons_self a as),
      flatMap_congr as (fun x hx => h x (List.mem_cons.mpr (Or.inr hx)))]

theorem pairwise_trivial {α : Type} {R : α → α → Prop} (h : ∀ a b, R a b) :
    ∀ l : List α, l.Pairwise R
  | [] => List.Pairwise.nil
  | a :: as => List.pairwise_cons.mpr ⟨fun x _ => h a x, pairwise_trivial h as⟩

theorem lookup_eq_none_of_not_mem {α β : Type} [BEq α] [LawfulBEq α] {k : α} :
    ∀ {l : List (α × β)}, k ∉ l.map Prod.fst → l.lookup k = none
  | [], _ => rfl
  | (a, b) :: es, h => by
    have h₁ : k ≠ a := by
      intro he
      exact h (by rw [List.map_cons, he]; exact List.mem_cons_self a _)
    have hbeq : (k == a) = false := beq_eq_false_iff_ne.mpr h₁
    simp only [List.lookup, hbeq]
    exact lookup_eq_none_of_not_mem (fun hm => h (List.mem_cons.mpr (Or.inr hm)))

/-! ### Determinism of the directory scan -/

/-- Normalise a walk entry: sort its filename list.  Two walks of the same
tree agree up to permutation after normalisation. -/
def normEntry (e : String × List String) : String × List String :=
  (e.1, sortBy strLe e.2)

/-- Well-formedness of the file-system oracle: the roots of a walk listing
are pairwise distinct (true of every real `os.walk`). -/
def FSWF (fs : FS) : Prop := ∀ d : String, ((fs.walk d).map Prod.fst).Nodup

/-- Two oracles describe the same directory tree: same directories, and
scan/walk listings that agree up to enumeration order. -/
def FSEquiv (fs₁ fs₂ : FS) : Prop :=
  fs₁.isdir = fs₂.isdir ∧
  (∀ d : String, (fs₁.scandir d).Perm (fs₂.scandir d)) ∧
  (∀ d : String, ((fs₁.walk d).map normEntry).Perm ((fs₂.walk d).map normEntry))

theorem norm_roots (es : List (String × List String)) :
    (es.map normEntry).map Prod.fst = es.map Prod.fst := by
  rw [List.map_map]; rfl

theorem sortedEntries_map_norm (es : List (String × List String))
    (hnd : (es.map Prod.fst).Nodup) :
    ((sortBy entryLe es).map normEntry).Pairwise (fun a b => strLt a.1 b.1 = true) ∧
    ((sortBy entryLe es).map normEntry).Perm (es.map normEntry) := by
  constructor
  · have h1 := sortBy_sorted entryLe_total entryLe_trans es
    have h2 : ((sortBy entryLe es).map Prod.fst).Nodup :=
      ((sortBy_perm entryLe es).map Prod.fst).nodup_iff.mpr hnd
    have h2' : (sortBy entryLe es).Pairwise (fun a b => a.1 ≠ b.1) :=
      List.pairwise_map.mp h2
    have h3 : (sortBy entryLe es).Pairwise (fun a b => strLt a.1 b.1 = true) := by
      refine (h1.and h2').imp ?_
      intro a b hab
      have := hab.1
      rw [entryLe, if_neg hab.2] at this
      exact this
    exact List.pairwise_map.mpr h3
  · exact (sortBy_perm entryLe es).map normEntry

theorem sortedEntries_eq {es₁ es₂ : List (String × List String)}
    (hnd : (es₁.map Prod.fst).Nodup)
    (hperm : (es₁.map normEntry).Perm (es₂.map normEntry)) :
    (sortBy entryLe es₁).map normEntry = (sortBy entryLe es₂).map normEntry := by
  have hnd₂ : (es₂.map Prod.fst).Nodup := by
    rw [← norm_roots es₂]
    exact ((hperm.map Prod.fst).nodup_iff).mp (by rw [norm_roots es₁]; exact hnd)
  obtain ⟨hp₁, hq₁⟩ := sortedEntries_map_norm es₁ hnd
  obtain ⟨hp₂, hq₂⟩ := sortedEntries_map_norm es₂ hnd₂
  have hanti : IsAntisymm (String × List String)
      (fun a b => strLt a.1 b.1 = true) :=
    ⟨fun a b h₁ h₂ => (strLt_asymm _ _ h₁ h₂).elim⟩
  exact @List.eq_of_perm_of_sorted (String × List String)
    (fun a b => strLt a.1 b.1 = true) hanti _ _
    (hq₁.trans (hperm.trans hq₂.symm)) hp₁ hp₂

theorem classFiles_eq_of_perm (fs₁ fs₂ : FS) (valid : String → Bool) (td : String)
    (hnd : ((fs₁.walk td).map Prod.fst).Nodup)
    (hperm : ((fs₁.walk td).map normEntry).Perm ((fs₂.walk td).map normEntry)) :
    classFiles fs₁ valid td = classFiles fs₂ valid td := by
  have key := sortedEntries_eq hnd hperm
  have reshape : ∀ es : List (String × List String),
      ((sortBy entryLe es).flatMap fun e =>
        (sortBy strLe e.2).filterMap fun fname =>
          let path := pathJoin e.1 fname
          if valid path then some path else none)
      = (((sortBy entryLe es).map normEntry).flatMap fun e =>
        e.2.filterMap fun fname =>
          let path := pathJoin e.1 fname
          if valid path then some path else none) := by
    intro es
    rw [List.flatMap_map]
    rfl
  unfold classFiles
  rw [reshape, reshape, key]

theorem find_classes_eq_of_perm {dirs₁ dirs₂ : List String} (h : dirs₁.Perm dirs₂) :
    find_classes dirs₁ = find_classes dirs₂ := by
  unfold find_classes
  rw [sortBy_eq_of_perm strLe_total strLe_trans strLe_antisymm h]

theorem make_dataset_eq_of_equiv {fs₁ fs₂ : FS} (root : String)
    (cti : List (String × Nat)) (ext : Option (List String))
    (ivf : Option (String → Bool)) (hWF : FSWF fs₁) (heq : FSEquiv fs₁ fs₂) :
    make_dataset fs₁ root cti ext ivf = make_dataset fs₂ root cti ext ivf := by
  unfold make_dataset
  cases resolveValid ext ivf with
  | error e => rfl
  | ok valid =>
    refine congrArg Except.ok ?_
    apply flatMap_congr
    intro c _
    cases cti.lookup c with
    | none => rfl
    | some i =>
      have hd2 : fs₂.isdir = fs₁.isdir := heq.1.symm
      rw [hd2]
      dsimp only
      by_cases hd : fs₁.isdir (pathJoin root c) = true
      · rw [if_pos hd, if_pos hd,
          classFiles_eq_of_perm fs₁ fs₂ valid (pathJoin root c) (hWF _) (heq.2.2 _)]
      · rw [if_neg hd, if_neg hd]

theorem init_eq_of_equiv {fs₁ fs₂ : FS} (root : String) (ext : Option (List String))
    (ivf : Option (String → Bool)) (hWF : FSWF fs₁) (heq : FSEquiv fs₁ fs₂) :
    DatasetFolder.init fs₁ root ext ivf = DatasetFolder.init fs₂ root ext ivf := by
  unfold DatasetFolder.init
  dsimp only
  rw [find_classes_eq_of_perm (heq.2.1 root),
    make_dataset_eq_of_equiv root _ ext ivf hWF heq]

/-! ### Sortedness facts -/

theorem find_classes_sorted (dirs : List String) :
    (find_classes dirs).1.Pairwise (fun a b => strLe a b = true) :=
  sortBy_sorted strLe_total strLe_trans dirs

theorem lexLe_append_mono (d f₁ f₂ : String) (h : strLe f₁ f₂ = true) :
    strLe (pathJoin d f₁) (pathJoin d f₂) = true := by
  unfold strLe pathJoin at *
  simp only [String.data_append]
  rw [lexLe_append_same]
  exact h

theorem classFiles_flat_sorted (fs : FS) (valid : String → Bool) (td r : String)
    (fnames : List String) (hwalk : fs.walk td = [(r, fnames)]) :
    (classFiles fs valid td).Pairwise (fun a b => strLe a b = true) := by
  unfold classFiles
  rw [hwalk]
  have hs : sortBy entryLe [(r, fnames)] = [(r, fnames)] := rfl
  rw [hs, List.flatMap_cons, List.flatMap_nil, List.append_nil]
  apply List.pairwise_filterMap.mpr
  refine (sortBy_sorted strLe_total strLe_trans fnames).imp ?_
  intro f₁ f₂ hle b hb b' hb'
  by_cases h₁ : valid (pathJoin r f₁) = true
  · by_cases h₂ : valid (pathJoin r f₂) = true
    · simp only [h₁, if_true, Option.mem_def, Option.some.injEq] at hb
      simp only [h₂, if_true, Option.mem_def, Option.some.injEq] at hb'
      rw [← hb, ← hb']
      exact lexLe_append_mono r f₁ f₂ hle
    · simp [h₂] at hb'
  · simp [h₁] at hb

/-! ### Class indices are alphabetical ranks -/

theorem find_classes_fst (dirs : List String) :
    (find_classes dirs).1 = sortBy strLe dirs := rfl

theorem find_classes_snd (dirs : List String) :
    (find_classes dirs).2 =
      (sortBy strLe dirs).enum.map (fun p => (p.2, p.1)) := rfl

theorem cti_keys (dirs : List String) :
    ((find_classes dirs).2).map Prod.fst = sortBy strLe dirs := by
  rw [find_classes_snd, List.map_map]
  exact List.enum_map_snd _

theorem enumFrom_assoc_lookup :
    ∀ (n : Nat) (l : List String), l.Nodup → ∀ (i : Nat) (hi : i < l.length),
      ((List.enumFrom n l).map (fun p => (p.2, p.1))).lookup (l.get ⟨i, hi⟩) =
        some (n + i)
  | _, [], _, i, hi => absurd hi (by simp)
  | n, a :: as, _, 0, _ => by
    rw [List.enumFrom_cons, List.map_cons]
    show List.lookup a ((a, n) :: (List.enumFrom (n + 1) as).map (fun p => (p.2, p.1))) =
      some (n + 0)
    simp [List.lookup]
  | n, a :: as, hnd, i + 1, hi => by
    rw [List.enumFrom_cons, List.map_cons]
    have hi' : i < as.length := by
      have := hi
      simp only [List.length_cons] at this
      omega
    have hmem : as.get ⟨i, hi'⟩ ∈ as := List.get_mem as i hi'
    have hne : (as.get ⟨i, hi'⟩) ≠ a := by
      intro he
      exact (List.nodup_cons.mp hnd).1 (he ▸ hmem)
    have hbeq : ((as.get ⟨i, hi'⟩) == a) = false := beq_eq_false_iff_ne.mpr hne
    show List.lookup ((a :: as).get ⟨i + 1, hi⟩)
      ((a, n) :: (List.enumFrom (n + 1) as).map (fun p => (p.2, p.1))) = some (n + (i + 1))
    have hget : (a :: as).get ⟨i + 1, hi⟩ = as.get ⟨i, hi'⟩ := rfl
    rw [hget]
    simp only [List.lookup, hbeq]
    rw [enumFrom_assoc_lookup (n + 1) as (List.nodup_cons.mp hnd).2 i hi']
    congr 1
    omega

theorem mem_snd_block {fs : FS} {valid : String → Bool} {root c : String}
    {idx x : Nat}
    (hx : x ∈ List.map Prod.snd
      (if fs.isdir (pathJoin root c) = true then
        List.map (fun path => (path, idx)) (classFiles fs valid (pathJoin root c))
      else [])) : x = idx := by
  by_cases hd : fs.isdir (pathJoin root c) = true
  · rw [if_pos hd, List.map_map] at hx
    rcases List.mem_map.mp hx with ⟨p, _, hpx⟩
    exact hpx.symm
  · rw [if_neg hd] at hx
    simp at hx

theorem make_dataset_labels_sorted (fs : FS) (root : String) (dirs : List String)
    (ext : Option (List String)) (ivf : Option (String → Bool))
    (samples : List (String × Nat)) (hnd : dirs.Nodup)
    (h : make_dataset fs root (find_classes dirs).2 ext ivf = .ok samples) :
    (samples.map Prod.snd).Pairwise (· ≤ ·) := by
  have hndc : (sortBy strLe dirs).Nodup := (sortBy_perm strLe dirs).nodup_iff.mpr hnd
  unfold make_dataset at h
  cases hv : resolveValid ext ivf with
  | error e => rw [hv] at h; exact absurd h (by simp)
  | ok valid =>
    rw [hv] at h
    injection h with h
    subst h
    rw [cti_keys dirs, sortBy_of_pairwise _ (sortBy_sorted strLe_total strLe_trans dirs)]
    rw [List.map_flatMap, List.flatMap_def]
    apply List.pairwise_flatten.mpr
    constructor
    · intro blk hblk
      rcases List.mem_map.mp hblk with ⟨c, _, hc⟩
      subst hc
      cases hl : (find_classes dirs).2.lookup c with
      | none => exact List.Pairwise.nil
      | some i =>
        dsimp only
        by_cases hd : fs.isdir (pathJoin root c) = true
        · rw [if_pos hd, List.map_map]
          exact List.pairwise_map.mpr (pairwise_trivial (fun _ _ => le_refl i) _)
        · rw [if_neg hd]
          exact List.Pairwise.nil
    · apply List.pairwise_map.mpr
      apply List.pairwise_iff_get.mpr
      intro i j hij x hx y hy
      have hli := enumFrom_assoc_lookup 0 (sortBy strLe dirs) hndc i.1 i.2
      have hlj := enumFrom_assoc_lookup 0 (sortBy strLe dirs) hndc j.1 j.2
      rw [Nat.zero_add] at hli hlj
      have hxi : x = i.1 := by
        rw [show (find_classes dirs).2.lookup ((sortBy strLe dirs).get i) = some i.1 from hli] at hx
        exact mem_snd_block hx
      have hyj : y = j.1 := by
        rw [show (find_classes dirs).2.lookup ((sortBy strLe dirs).get j) = some j.1 from hlj] at hy
        exact mem_snd_block hy
      rw [hxi, hyj]
      exact le_of_lt hij

/-! ### Claim C1 -/

/-- A tree whose single class directory `c` contains two subdirectories
`a` and `a-b`: because `-` sorts before `/`, the joined paths of class
`c` are not in lexicographic order even though every individual sort the
code performs is. -/
def fsCx : FS :=
  ⟨fun d => if d = "r" then ["c"] else [],
   fun _ => true,
   fun d =>
     if d = "r/c" then [("r/c/a", ["f.png"]), ("r/c", []), ("r/c/a-b", ["g.png"])]
     else []⟩

/-- C1, counterexample: on the tree of `fsCx` the construction succeeds and
produces the class-`c` sample paths `r/c/a/f.png`, `r/c/a-b/g.png` in that
order, which is not lexicographically sorted (`'-' < '/'`), refuting "file
paths within each class in sorted order". -/
theorem claim1_cx :
    DatasetFolder.init fsCx "r" none (some fun _ => true) =
      .ok ⟨["c"], [("c", 0)], [("r/c/a/f.png", 0), ("r/c/a-b/g.png", 0)], [0, 0]⟩
    ∧ ¬ ([("r/c/a/f.png", 0), ("r/c/a-b/g.png", 0)].map Prod.fst).Pairwise
        (fun a b : String => strLe a b = true) := by
  constructor
  · rfl
  · intro hp
    have h := (List.pairwise_cons.mp hp).1 _ (List.mem_cons_self _ _)
    exact absurd h (by decide)

/-- C1, amended: for every fixed directory tree the construction is
deterministic (independent of scan and walk enumeration order), the class
list is alphabetically sorted, the samples are grouped by class in
alphabetical class order (their class indices are non-decreasing), and the
paths within a class are sorted by (walk directory, filename); they are
lexicographically sorted whenever the class directory holds its files
directly (one walk entry), though not in general for nested
subdirectories. -/
theorem claim1_amended :
    (∀ dirs : List String,
      (find_classes dirs).1.Pairwise (fun a b => strLe a b = true))
  ∧ (∀ dirs₁ dirs₂ : List String, dirs₁.Perm dirs₂ →
      find_classes dirs₁ = find_classes dirs₂)
  ∧ (∀ (fs : FS) (root : String) (dirs : List String) (ext : Option (List String))
      (ivf : Option (String → Bool)) (samples : List (String × Nat)),
      dirs.Nodup → make_dataset fs root (find_classes dirs).2 ext ivf = .ok samples →
      (samples.map Prod.snd).Pairwise (· ≤ ·))
  ∧ (∀ (fs : FS) (valid : String → Bool) (td r : String) (fnames : List String),
      fs.walk td = [(r, fnames)] →
      (classFiles fs valid td).Pairwise (fun a b => strLe a b = true))
  ∧ (∀ (fs₁ fs₂ : FS) (root : String) (ext : Option (List String))
      (ivf : Option (String → Bool)), FSWF fs₁ → FSEquiv fs₁ fs₂ →
      DatasetFolder.init fs₁ root ext ivf = DatasetFolder.init fs₂ root ext ivf) :=
  ⟨find_classes_sorted,
   fun _ _ h => find_classes_eq_of_perm h,
   fun fs root dirs ext ivf samples hnd h =>
     make_dataset_labels_sorted fs root dirs ext ivf samples hnd h,
   fun fs valid td r fnames h => classFiles_flat_sorted fs valid td r fnames h,
   fun _ _ root ext ivf hWF heq => init_eq_of_equiv root ext ivf hWF heq⟩

/-- A flat two-class tree used to witness C1's amended statement. -/
def fsW : FS :=
  ⟨fun d => if d = "r" then ["b", "a"] else [],
   fun _ => true,
   fun d =>
     if d = "r/a" then [("r/a", ["g.png", "f.png"])]
     else if d = "r/b" then [("r/b", ["h.png"])] else []⟩

/-- C1, witness: the amended statement applied to the concrete flat tree
`fsW`, discharging every hypothesis there. -/
theorem claim1_amended_witness :
    (find_classes ["b", "a"]).1.Pairwise (fun a b => strLe a b = true)
  ∧ find_classes ["b", "a"] = find_classes ["a", "b"]
  ∧ ((([("r/a/f.png", 0), ("r/a/g.png", 0), ("r/b/h.png", 1)] :
      List (String × Nat)).map Prod.snd).Pairwise (· ≤ ·))
  ∧ (classFiles fsW (fun _ => true) "r/a").Pairwise (fun a b => strLe a b = true)
  ∧ DatasetFolder.init fsW "r" none (some fun _ => true) =
      DatasetFolder.init fsW "r" none (some fun _ => true) := by
  obtain ⟨h1, h2, h3, h4, h5⟩ := claim1_amended
  have hwf : FSWF fsW := by
    intro d
    by_cases hd1 : d = "r/a"
    · subst hd1; decide
    · by_cases hd2 : d = "r/b"
      · subst hd2; decide
      · have hw : fsW.walk d = [] := by
          dsimp only [fsW]
          rw [if_neg hd1, if_neg hd2]
        rw [hw]
        decide
  refine ⟨h1 ["b", "a"], h2 _ _ (by decide), ?_,
    h4 fsW (fun _ => true) "r/a" "r/a" ["g.png", "f.png"] rfl,
    h5 fsW fsW "r" none (some fun _ => true) hwf
      ⟨rfl, fun _ => List.Perm.refl _, fun _ => List.Perm.refl _⟩⟩
  exact h3 fsW "r" ["b", "a"] none (some fun _ => true)
    [("r/a/f.png", 0), ("r/a/g.png", 0), ("r/b/h.png", 1)] (by decide) rfl

/-! ### Claims C4 and C5 -/

/-- C4: for every nonempty rational array whose maximum exceeds its
minimum, `normalize_to_0_1` keeps the shape (length), lands in `[0, 1]`,
attains `0` as its minimum and `1` as its maximum, and is computed
elementwise as `(x - min) / (max - min)`. -/
theorem claim4_normalize (l : List ℚ) (hne : l ≠ []) (hlt : npMin l < npMax l) :
    (normalize_to_0_1 l).length = l.length ∧
    (∀ x ∈ normalize_to_0_1 l, 0 ≤ x ∧ x ≤ 1) ∧
    npMin (normalize_to_0_1 l) = 0 ∧
    npMax (normalize_to_0_1 l) = 1 ∧
    ∀ i : Nat, (normalize_to_0_1 l)[i]? =
      (l[i]?).map fun x => (x - npMin l) / (npMax l - npMin l) := by
  have hd : (0 : ℚ) < npMax l - npMin l := sub_pos.mpr hlt
  have hmono : Monotone fun x : ℚ => (x - npMin l) / (npMax l - npMin l) := by
    intro x y hxy
    exact div_le_div_of_nonneg_right (sub_le_sub_right hxy _) (le_of_lt hd)
  refine ⟨by simp [normalize_to_0_1], ?_, ?_, ?_, ?_⟩
  · intro x hx
    rcases List.mem_map.mp hx with ⟨y, hy, hxy⟩
    rw [← hxy]
    constructor
    · exact div_nonneg (sub_nonneg.mpr (npMin_le y hy)) (le_of_lt hd)
    · exact (div_le_one hd).mpr (sub_le_sub_right (npMax_ge y hy) _)
  · show npMin (l.map _) = 0
    rw [npMin_map hmono hne, sub_self, zero_div]
  · show npMax (l.map _) = 1
    rw [npMax_map hmono hne]
    exact div_self (ne_of_gt hd)
  · intro i
    exact List.getElem?_map _ l i

/-- C4, witness: the theorem applied to the concrete array `[0, 2, 1]`. -/
theorem claim4_witness :
    (([(0 : ℚ), 2, 1] : List ℚ) ≠ [] ∧ npMin [(0 : ℚ), 2, 1] < npMax [(0 : ℚ), 2, 1])
    ∧ ((normalize_to_0_1 [(0 : ℚ), 2, 1]).length = ([(0 : ℚ), 2, 1] : List ℚ).length ∧
      (∀ x ∈ normalize_to_0_1 [(0 : ℚ), 2, 1], 0 ≤ x ∧ x ≤ 1) ∧
      npMin (normalize_to_0_1 [(0 : ℚ), 2, 1]) = 0 ∧
      npMax (normalize_to_0_1 [(0 : ℚ), 2, 1]) = 1 ∧
      ∀ i : Nat, (normalize_to_0_1 [(0 : ℚ), 2, 1])[i]? =
        (([(0 : ℚ), 2, 1] : List ℚ)[i]?).map fun x =>
          (x - npMin [(0 : ℚ), 2, 1]) / (npMax [(0 : ℚ), 2, 1] - npMin [(0 : ℚ), 2, 1])) :=
  ⟨⟨by decide, by decide⟩, claim4_normalize [0, 2, 1] (by decide) (by decide)⟩

/-- C5, counterexample: for the constant array `[5, 5]` the divisor
`np.max - np.min` of `normalize_to_0_1` is exactly zero, refuting "the
division performed by normalize_to_0_1 has a nonzero divisor ... in
particular this holds for constant arrays". -/
theorem claim5_cx : npMax [(5 : ℚ), 5] - npMin [(5 : ℚ), 5] = 0 := by
  simp [npMax, npMin]

/-- C5, amended: the divisor `np.max(sample) - np.min(sample)` is nonzero
exactly when the maximum strictly exceeds the minimum; for constant
(nonempty) arrays it is zero. -/
theorem claim5_amended :
    (∀ l : List ℚ, npMax l - npMin l ≠ 0 ↔ npMin l < npMax l)
  ∧ (∀ (c : ℚ) (n : Nat),
      npMax (List.replicate (n + 1) c) - npMin (List.replicate (n + 1) c) = 0) := by
  constructor
  · intro l
    constructor
    · intro hne
      rcases lt_or_eq_of_le (npMin_le_npMax l) with h | h
      · exact h
      · exact absurd (by rw [← h, sub_self]) hne
    · intro hlt
      exact sub_ne_zero.mpr (ne_of_gt hlt)
  · intro c n
    show (List.replicate n c).foldl max c - (List.replicate n c).foldl min c = 0
    rw [foldl_max_replicate, foldl_min_replicate, sub_self]

/-! ### Claim C2 -/

/-- An `args` object with no fsid restriction, 2-d data and no relabelling. -/
def args0 : Args := ⟨none, false, []⟩

/-- Loader oracles that always raise. -/
def envB : LoadEnv :=
  ⟨fun _ => .error "boom", fun _ => .error "boom", fun _ => .error "boom"⟩

/-- C2, counterexample: `MultiTaskDatasetFolder.__getitem__` has no
`try`/`except` at all — when a per-sample load raises, the exception
propagates to the caller instead of being caught and retried. -/
theorem claim2_cx :
    mtGetitem envB args0 ["t"] (fun _ => [("p.npy", 0)]) none none ⟨[], []⟩ 0 =
      .error "boom" := rfl

/-- C2, amended: `DatasetFolder.__getitem__` catches a failing sample load
and retries with the next `random.randint(0, len(samples) - 1)` draw — an
index that is in range but not necessarily different from the failing one —
while `MultiTaskDatasetFolder.__getitem__` propagates the first load
error. -/
theorem claim2_amended :
    (∀ {α : Type} (samples : List (String × Nat)) (loader : String → Except String α)
      (transform : Option (α → α)) (ttr : Option (Nat → Nat)) (fuel index r : Nat)
      (rng : List Nat) (e : String),
      tryLoad samples loader index = .error e →
      DatasetFolder.getitem samples loader transform ttr (fuel + 1) index (r :: rng) =
        DatasetFolder.getitem samples loader transform ttr fuel
          (r % samples.length) rng)
  ∧ (∀ (samples : List (String × Nat)) (r : Nat), samples ≠ [] →
      r % samples.length < samples.length)
  ∧ (∀ (env : LoadEnv) (args : Args) (task : String) (rest : List String)
      (samples : String → List (String × Nat))
      (tr : Option (List (String × Arr) → List (String × Arr)))
      (ttr : Option (Nat → Nat)) (st : MTState) (index : Nat)
      (path : String) (tgt : Nat) (e : String),
      st.cache.lookup index = none →
      (samples task).get? index = some (path, tgt) →
      loadTaskSample env args task path = .error e →
      mtGetitem env args (task :: rest) samples tr ttr st index = .error e) := by
  refine ⟨?_, ?_, ?_⟩
  · intro α samples loader transform ttr fuel index r rng e h
    have hloop : getitemLoop samples loader (fuel + 1) index (r :: rng) =
        getitemLoop samples loader fuel (r % samples.length) rng := by
      rw [getitemLoop, h]
    unfold DatasetFolder.getitem
    rw [hloop]
  · intro samples r hne
    exact Nat.mod_lt r (List.length_pos.mpr hne)
  · intro env args task rest samples tr ttr st index path tgt e hc hg hl
    have hloop : mtLoadLoop env args samples index (task :: rest) [] none st.ids =
        .error e := by
      rw [mtLoadLoop, hg]
      dsimp only
      rw [hl]
    unfold mtGetitem
    rw [hc, hloop]

/-- A one-sample dataset whose loader always fails. -/
def samplesB : List (String × Nat) := [("p", 0)]

/-- A loader that always raises. -/
def loaderB : String → Except String Nat := fun _ => .error "boom"

/-- C2, witness: the amended statement applied at concrete inputs — the
failing single-sample `DatasetFolder` retries with draw `0 % 1 = 0`, the
replacement index is in range, and a concrete `MultiTaskDatasetFolder`
call propagates its load error. -/
theorem claim2_amended_witness :
    (DatasetFolder.getitem samplesB loaderB none none 1 0 [0] =
      DatasetFolder.getitem samplesB loaderB none none 0 (0 % samplesB.length) [])
  ∧ 5 % samplesB.length < samplesB.length
  ∧ mtGetitem envB args0 ["u"] (fun _ => [("q.npy", 1), ("p.npy", 2)]) none none
      ⟨[], []⟩ 1 = .error "boom" := by
  obtain ⟨h1, h2, h3⟩ := claim2_amended
  exact ⟨h1 samplesB loaderB none none 0 0 0 [] "boom" rfl,
    h2 samplesB 5 (by decide),
    h3 envB args0 "u" [] (fun _ => [("q.npy", 1), ("p.npy", 2)]) none none
      ⟨[], []⟩ 1 "p.npy" 2 "boom" rfl rfl rfl⟩

/-! ### Claim C3 -/

theorem mapTasks_error_of_mem {β : Type} {f : String → Except String β} {e : String} :
    ∀ {l : List String} {t : String}, t ∈ l → f t = .error e →
      ∃ e', mapTasks f l = .error e'
  | [], t, ht, _ => absurd ht (List.not_mem_nil t)
  | x :: xs, t, ht, hf => by
    cases hx : f x with
    | error e₀ => exact ⟨e₀, by rw [mapTasks, hx]⟩
    | ok r =>
      rcases List.mem_cons.mp ht with heq | ht'
      · rw [← heq] at hx
        rw [hf] at hx
        exact absurd hx (by simp)
      · obtain ⟨e', he'⟩ := mapTasks_error_of_mem ht' hf
        exact ⟨e', by rw [mapTasks, hx, he']⟩

theorem mapTasks_ok_mem {β : Type} {f : String → Except String β} :
    ∀ {l : List String} {rs : List β}, mapTasks f l = .ok rs →
      ∀ t ∈ l, ∃ b, f t = .ok b ∧ b ∈ rs
  | [], _, _, t, ht => absurd ht (List.not_mem_nil t)
  | x :: xs, rs, h, t, ht => by
    rw [mapTasks] at h
    cases hx : f x with
    | error e => rw [hx] at h; exact absurd h (by simp)
    | ok r =>
      rw [hx] at h
      cases hxs : mapTasks f xs with
      | error e => rw [hxs] at h; exact absurd h (by simp)
      | ok rs' =>
        rw [hxs] at h
        injection h with h
        subst h
        rcases List.mem_cons.mp ht with heq | ht'
        · subst heq
          exact ⟨r, hx, List.mem_cons_self _ _⟩
        · obtain ⟨b, hb, hbm⟩ := mapTasks_ok_mem hxs t ht'
          exact ⟨b, hb, List.mem_cons.mpr (Or.inr hbm)⟩

theorem find?_isSome_of_mem {α : Type} {p : α → Bool} :
    ∀ {l : List α} {x : α}, x ∈ l → p x = true → ∃ y, l.find? p = some y
  | [], x, hx, _ => absurd hx (List.not_mem_nil x)
  | a :: as, x, hx, hp => by
    cases ha : p a with
    | true => exact ⟨a, by simp [List.find?, ha]⟩
    | false =>
      rcases List.mem_cons.mp hx with heq | hx'
      · rw [← heq] at ha
        rw [hp] at ha
        exact absurd ha (by simp)
      · obtain ⟨y, hy⟩ := find?_isSome_of_mem hx' hp
        exact ⟨y, by simp [List.find?, ha, hy]⟩

/-- C3: construction raises immediately on zero-sample or missing-directory
conditions.  `DatasetFolder.__init__` raises when `make_dataset` finds no
samples; `MultiTaskDatasetFolder.__init__` raises when any task's sample
list is empty, and when a task directory does not exist (the
`make_nonclass_dataset` assertion); in every such case the constructor
returns an error and no dataset object. -/
theorem claim3_init_raises :
    (∀ (fs : FS) (root : String) (ext : Option (List String))
      (ivf : Option (String → Bool)),
      make_dataset fs root (find_classes (fs.scandir root)).2 ext ivf = .ok [] →
      ∃ msg, DatasetFolder.init fs root ext ivf = .error msg)
  ∧ (∀ (fs : FS) (root : String) (tasks : List String) (args : Args)
      (ext : Option (List String)) (ivf : Option (String → Bool))
      (prefixes : List (String × String)) (maxImages : Option Nat)
      (perm : Nat → List Nat) (t : String), t ∈ tasks →
      make_nonclass_dataset fs (pathJoin root (((prefixes.lookup t).getD "") ++ t))
        args ext ivf = .ok [] →
      ∃ msg, MultiTask.init fs root tasks args ext ivf prefixes maxImages perm =
        .error msg)
  ∧ (∀ (fs : FS) (root : String) (tasks : List String) (args : Args)
      (ext : Option (List String)) (ivf : Option (String → Bool))
      (prefixes : List (String × String)) (maxImages : Option Nat)
      (perm : Nat → List Nat) (t : String), t ∈ tasks →
      fs.isdir (pathJoin root (((prefixes.lookup t).getD "") ++ t)) = false →
      ∃ msg, MultiTask.init fs root tasks args ext ivf prefixes maxImages perm =
        .error msg) := by
  refine ⟨?_, ?_, ?_⟩
  · intro fs root ext ivf h
    unfold DatasetFolder.init
    dsimp only
    rw [h]
    exact ⟨_, rfl⟩
  · intro fs root tasks args ext ivf prefixes maxImages perm t ht hmk
    have hft : taskBuilder fs root args ext ivf prefixes t = .ok (t, []) := by
      unfold taskBuilder
      rw [hmk]
    unfold MultiTask.init
    cases hm : mapTasks (taskBuilder fs root args ext ivf prefixes) tasks with
    | error e => exact ⟨e, rfl⟩
    | ok rs =>
      dsimp only
      obtain ⟨b, hb, hbm⟩ := mapTasks_ok_mem hm t ht
      rw [hft] at hb
      injection hb with hb
      subst hb
      obtain ⟨y, hy⟩ := @find?_isSome_of_mem (String × List (String × Nat))
        (fun p => p.2.isEmpty) rs (t, []) hbm rfl
      rw [hy]
      exact ⟨_, rfl⟩
  · intro fs root tasks args ext ivf prefixes maxImages perm t ht hdir
    have hfail : ∃ e, taskBuilder fs root args ext ivf prefixes t = .error e := by
      unfold taskBuilder make_nonclass_dataset
      cases resolveValid ext ivf with
      | error e => exact ⟨e, rfl⟩
      | ok valid =>
        rw [hdir]
        exact ⟨_, rfl⟩
    obtain ⟨e, he⟩ := hfail
    obtain ⟨e', he'⟩ := mapTasks_error_of_mem ht he
    unfold MultiTask.init
    rw [he']
    exact ⟨e', rfl⟩

/-- A file system with an existing but empty root and task directory. -/
def fsEmpty : FS := ⟨fun _ => [], fun _ => true, fun _ => []⟩

/-- A file system with no directories at all. -/
def fsNone : FS := ⟨fun _ => [], fun _ => false, fun _ => []⟩

/-- C3, witness: the three parts applied to concrete file systems — an
empty tree for the zero-sample cases and a missing task directory for the
assertion case. -/
theorem claim3_init_raises_witness :
    (∃ msg, DatasetFolder.init fsEmpty "r" none (some fun _ => true) = .error msg)
  ∧ (∃ msg, MultiTask.init fsEmpty "r" ["a"] args0 none (some fun _ => true) [] none
      (fun _ => []) = .error msg)
  ∧ (∃ msg, MultiTask.init fsNone "r" ["a"] args0 none (some fun _ => true) [] none
      (fun _ => []) = .error msg) := by
  obtain ⟨h1, h2, h3⟩ := claim3_init_raises
  exact ⟨h1 fsEmpty "r" none (some fun _ => true) rfl,
    h2 fsEmpty "r" ["a"] args0 none (some fun _ => true) [] none (fun _ => [])
      "a" (List.mem_cons_self _ _) rfl,
    h3 fsNone "r" ["a"] args0 none (some fun _ => true) [] none (fun _ => [])
      "a" (List.mem_cons_self _ _) rfl⟩

/-! ### Claims C6 and C7 -/

theorem dictSet_fresh {d : List (String × Arr)} {k : String} {v : Arr}
    (h : k ∉ d.map Prod.fst) : dictSet d k v = d ++ [(k, v)] := by
  unfold dictSet
  rw [lookup_eq_none_of_not_mem h]
  rfl

theorem lookup_append_of_none {l₁ : List (Nat × String)} {k : Nat} {v : String}
    (h : l₁.lookup k = none) : (l₁ ++ [(k, v)]).lookup k = some v := by
  rw [List.lookup_append, h]
  simp [List.lookup]

theorem mtLoadLoop_ok (env : LoadEnv) (args : Args)
    (samples : String → List (String × Nat)) (index : Nat)
    (pathf : String → String) (tgtf : String → Nat) (valf : String → Arr) :
    ∀ (tasks : List String) (dict : List (String × Arr)) (target : Option Nat)
      (ids : List (Nat × String)),
      tasks.Nodup →
      (∀ t ∈ tasks, t ∉ dict.map Prod.fst) →
      (∀ t ∈ tasks, (samples t).get? index = some (pathf t, tgtf t) ∧
        loadTaskSample env args t (pathf t) = .ok (valf t)) →
      ∃ target' ids',
        mtLoadLoop env args samples index tasks dict target ids =
          .ok (dict ++ tasks.map (fun t => (t, valf t)), target', ids') ∧
        ((ids.lookup index).isSome = true ∨ tasks ≠ [] →
          (ids'.lookup index).isSome = true)
  | [], dict, target, ids, _, _, _ => by
    refine ⟨target, ids, by simp [mtLoadLoop], ?_⟩
    rintro (h | h)
    · exact h
    · exact absurd rfl h
  | task :: rest, dict, target, ids, hnd, hfresh, hload => by
    obtain ⟨hg, hl⟩ := hload task (List.mem_cons_self _ _)
    have hfreshtask : task ∉ dict.map Prod.fst := hfresh task (List.mem_cons_self _ _)
    have hset : dictSet dict task (valf task) = dict ++ [(task, valf task)] :=
      dictSet_fresh hfreshtask
    have hidsSome : ((if (ids.lookup index).isSome = true then ids
        else ids ++ [(index, stem (pathf task))]).lookup index).isSome = true := by
      by_cases hi : (ids.lookup index).isSome = true
      · rw [if_pos hi]; exact hi
      · rw [if_neg hi]
        have hnone : ids.lookup index = none := by
          cases hcase : ids.lookup index with
          | none => rfl
          | some s => rw [hcase] at hi; exact absurd rfl hi
        rw [lookup_append_of_none hnone]
        rfl
    have hnd' := (List.nodup_cons.mp hnd).2
    have hfresh' : ∀ t ∈ rest, t ∉ (dict ++ [(task, valf task)]).map Prod.fst := by
      intro t htr hmem
      rw [List.map_append] at hmem
      rcases List.mem_append.mp hmem with hm | hm
      · exact hfresh t (List.mem_cons.mpr (Or.inr htr)) hm
      · have ht : t = task := by simpa using hm
        exact (List.nodup_cons.mp hnd).1 (ht ▸ htr)
    have hload' : ∀ t ∈ rest, (samples t).get? index = some (pathf t, tgtf t) ∧
        loadTaskSample env args t (pathf t) = .ok (valf t) :=
      fun t htr => hload t (List.mem_cons.mpr (Or.inr htr))
    obtain ⟨target', ids'', heq, hsome⟩ :=
      mtLoadLoop_ok env args samples index pathf tgtf valf rest
        (dict ++ [(task, valf task)]) (some (tgtf task))
        (if (ids.lookup index).isSome = true then ids
         else ids ++ [(index, stem (pathf task))]) hnd' hfresh' hload'
    refine ⟨target', ids'', ?_, fun _ => hsome (Or.inl hidsSome)⟩
    rw [mtLoadLoop, hg]
    dsimp only
    rw [hl]
    dsimp only
    rw [hset, heq, List.map_cons, List.append_cons]
    simp

theorem map_fst_pair {valf : String → Arr} :
    ∀ tasks : List String, (tasks.map (fun t => (t, valf t))).map Prod.fst = tasks
  | [] => rfl
  | x :: xs => by rw [List.map_cons, List.map_cons, map_fst_pair xs]

theorem lookup_map_self {valf : String → Arr} :
    ∀ {tasks : List String} {t : String}, tasks.Nodup → t ∈ tasks →
      (tasks.map (fun t => (t, valf t))).lookup t = some (valf t)
  | [], t, _, ht => absurd ht (List.not_mem_nil t)
  | x :: xs, t, hnd, ht => by
    rcases List.mem_cons.mp ht with heq | ht'
    · subst heq
      simp [List.lookup]
    · have hne : (t == x) = false := beq_eq_false_iff_ne.mpr
        (fun he => (List.nodup_cons.mp hnd).1 (he ▸ ht'))
      simp only [List.map_cons, List.lookup, hne]
      exact lookup_map_self (List.nodup_cons.mp hnd).2 ht'

/-- C6: on a cache miss with no transform, a successful
`MultiTaskDatasetFolder.__getitem__` call returns a triple whose first
component is a dictionary keyed exactly by the constructor's tasks, in
order, where the entry of each task is the sample loaded from that task's
sample list at the same shared index. -/
theorem claim6_aligned (env : LoadEnv) (args : Args) (tasks : List String)
    (samples : String → List (String × Nat)) (ttr : Option (Nat → Nat))
    (st : MTState) (index : Nat) (pathf : String → String) (tgtf : String → Nat)
    (valf : String → Arr)
    (hnd : tasks.Nodup) (hne : tasks ≠ [])
    (hmiss : st.cache.lookup index = none)
    (h : ∀ t ∈ tasks, (samples t).get? index = some (pathf t, tgtf t) ∧
      loadTaskSample env args t (pathf t) = .ok (valf t)) :
    ∃ target sid ids',
      mtGetitem env args tasks samples none ttr st index =
        .ok ((tasks.map (fun t => (t, valf t)), target, sid), ⟨st.cache, ids'⟩) ∧
      (tasks.map (fun t => (t, valf t))).map Prod.fst = tasks ∧
      ∀ t ∈ tasks, (tasks.map (fun t => (t, valf t))).lookup t = some (valf t) := by
  obtain ⟨target', ids', heq, hsome⟩ :=
    mtLoadLoop_ok env args samples index pathf tgtf valf tasks [] none st.ids hnd
      (fun t _ => List.not_mem_nil t) h
  have hidsSome := hsome (Or.inr hne)
  cases hcase : ids'.lookup index with
  | none => rw [hcase] at hidsSome; exact absurd hidsSome (by simp)
  | some sid =>
    refine ⟨(match ttr with | some f => target'.map f | none => target'), sid, ids',
      ?_, map_fst_pair tasks, fun t ht => lookup_map_self hnd ht⟩
    unfold mtGetitem
    rw [hmiss, heq]
    dsimp only
    rw [hcase]
    exact rfl

/-- Loader oracles whose image reader returns a 2-d array `[7]`. -/
def envW6 : LoadEnv :=
  ⟨fun _ => .error "e", fun _ => .error "e", fun _ => .ok ⟨2, [7]⟩⟩

/-- C6, witness: the theorem applied to a concrete one-task dataset (a
`semseg` task, whose empty relabelling map keeps the loaded array), with
every hypothesis discharged at the concrete input. -/
theorem claim6_aligned_witness :
    ∃ target sid ids',
      mtGetitem envW6 args0 ["semseg"] (fun _ => [("p.png", 7)]) none none
        ⟨[], []⟩ 0 =
        .ok ((["semseg"].map (fun t => (t, (⟨2, [7]⟩ : Arr))), target, sid),
          ⟨[], ids'⟩) ∧
      (["semseg"].map (fun t => (t, (⟨2, [7]⟩ : Arr)))).map Prod.fst = ["semseg"] ∧
      ∀ t ∈ ["semseg"],
        (["semseg"].map (fun t => (t, (⟨2, [7]⟩ : Arr)))).lookup t =
          some (⟨2, [7]⟩ : Arr) := by
  have h := claim6_aligned envW6 args0 ["semseg"] (fun _ => [("p.png", 7)]) none
    ⟨[], []⟩ 0 (fun _ => "p.png") (fun _ => 7) (fun _ => ⟨2, [7]⟩)
    (by decide) (by decide) rfl ?_
  · exact h
  · intro t ht
    have : t = "semseg" := List.mem_singleton.mp ht
    subst this
    exact ⟨rfl, rfl⟩

/-- C7, amended: `MultiTaskDatasetFolder`'s `self.cache` starts empty at
construction, is consulted by `__getitem__`, and is never evicted — but it
is also never populated (the write is commented out in the source), so
every call leaves the cache exactly as it was and repeated calls for the
same index recompute the result.  (`self.ids`, by contrast, is populated
lazily.) -/
theorem claim7_cache :
    (∀ (env : LoadEnv) (args : Args) (tasks : List String)
      (samples : String → List (String × Nat))
      (tr : Option (List (String × Arr) → List (String × Arr)))
      (ttr : Option (Nat → Nat)) (st : MTState) (index : Nat)
      (out : List (String × Arr) × Option Nat × String) (st' : MTState),
      mtGetitem env args tasks samples tr ttr st index = .ok (out, st') →
      st'.cache = st.cache)
  ∧ (∀ (fs : FS) (root : String) (tasks : List String) (args : Args)
      (ext : Option (List String)) (ivf : Option (String → Bool))
      (prefixes : List (String × String)) (maxImages : Option Nat)
      (perm : Nat → List Nat) (d : MTDataset),
      MultiTask.init fs root tasks args ext ivf prefixes maxImages perm = .ok d →
      d.st.cache = [] ∧ d.st.ids = []) := by
  constructor
  · intro env args tasks samples tr ttr st index out st' h
    unfold mtGetitem at h
    split at h
    · exact Except.noConfusion h
    · dsimp only at h
      repeat' split at h
      all_goals
        first
          | exact Except.noConfusion h
          | (injection h with h
             exact (congrArg
               (fun p : (List (String × Arr) × Option Nat × String) × MTState =>
                 p.2.cache) h).symm)
  · intro fs root tasks args ext ivf prefixes maxImages perm d h
    unfold MultiTask.init at h
    split at h
    · exact Except.noConfusion h
    · split at h
      · exact Except.noConfusion h
      · split at h
        · injection h with h
          rw [← h]
          exact ⟨rfl, rfl⟩
        · split at h
          · exact Except.noConfusion h
          · dsimp only at h
            split at h
            · exact Except.noConfusion h
            · injection h with h
              rw [← h]
              exact ⟨rfl, rfl⟩

/-- Loader oracles whose image reader returns a 1-d array `[4]`. -/
def envW7 : LoadEnv :=
  ⟨fun _ => .error "e", fun _ => .error "e", fun _ => .ok ⟨1, [4]⟩⟩

/-- C7, counterexample: a concrete `__getitem__` call that returns
successfully, yet the state after the call has an empty cache — the cache
does not hold the loaded result for the requested index, so a repeated
call cannot be served from it. -/
theorem claim7_cx :
    mtGetitem envW7 args0 ["semseg"] (fun _ => [("a.png", 5)]) none none
      ⟨[], []⟩ 0 =
      .ok (([("semseg", ⟨1, [4]⟩)], some 5, "a"), ⟨[], [(0, "a")]⟩)
    ∧ (MTState.mk [] [(0, "a")]).cache.lookup 0 = none :=
  ⟨rfl, rfl⟩

/-- C7, witness: the amended statement applied at concrete inputs — a
successful call on `envW6` leaves the cache unchanged, and a concretely
constructed dataset starts with empty cache and ids. -/
theorem claim7_cache_witness :
    ((MTState.mk [] [(0, "w")]).cache = (MTState.mk [] []).cache)
  ∧ ((MTDataset.mk ["a"] [("a", [("r/a/f.png", 0), ("r/a/g.png", 0)])]
        ⟨[], []⟩).st.cache = [] ∧
      (MTDataset.mk ["a"] [("a", [("r/a/f.png", 0), ("r/a/g.png", 0)])]
        ⟨[], []⟩).st.ids = []) := by
  obtain ⟨h1, h2⟩ := claim7_cache
  exact ⟨h1 envW6 args0 ["semseg"] (fun _ => [("w.png", 9)]) none none ⟨[], []⟩ 0
      ([("semseg", ⟨2, [7]⟩)], some 9, "w") ⟨[], [(0, "w")]⟩ rfl,
    h2 fsW "r" ["a"] args0 none (some fun _ => true) [] none (fun _ => [])
      ⟨["a"], [("a", [("r/a/f.png", 0), ("r/a/g.png", 0)])], ⟨[], []⟩⟩ rfl⟩

/-! ### Claim C8 -/

/-- C8: the class-name-to-index mapping built by `_find_classes` assigns to
the `i`-th name of the sorted classes list the integer `i`, so class
indices are consecutive from 0 in alphabetical rank order. -/
theorem claim8_rank (dirs : List String) (hnd : dirs.Nodup) :
    ∀ (i : Nat) (hi : i < (find_classes dirs).1.length),
      (find_classes dirs).2.lookup ((find_classes dirs).1.get ⟨i, hi⟩) = some i := by
  intro i hi
  have hndc : (sortBy strLe dirs).Nodup := (sortBy_perm strLe dirs).nodup_iff.mpr hnd
  have h := enumFrom_assoc_lookup 0 (sortBy strLe dirs) hndc i hi
  rw [Nat.zero_add] at h
  exact h

/-- C8, witness: the theorem applied to the scan listing `["b", "a"]` — the
sorted classes are `["a", "b"]` with `class_to_idx["a"] = 0` and
`class_to_idx["b"] = 1`. -/
theorem claim8_rank_witness :
    (["b", "a"] : List String).Nodup ∧
    (find_classes ["b", "a"]).2.lookup "a" = some 0 ∧
    (find_classes ["b", "a"]).2.lookup "b" = some 1 :=
  ⟨by decide,
   claim8_rank ["b", "a"] (by decide) 0 (by decide),
   claim8_rank ["b", "a"] (by decide) 1 (by decide)⟩

/-! ### Claim C9 -/

/-- C9: on an existing directory every pair produced by
`make_nonclass_dataset` carries label `0`, and a path is included exactly
when it is a walked file that passes the validity check and, when
`args.fsids` is set, has its stem in `args.fsids` (with no stem
restriction when `args.fsids` is `None`). -/
theorem claim9_nonclass (fs : FS) (directory : String) (args : Args)
    (ext : Option (List String)) (ivf : Option (String → Bool))
    (valid : String → Bool)
    (hv : resolveValid ext ivf = .ok valid)
    (hdir : fs.isdir directory = true) :
    ∃ instances, make_nonclass_dataset fs directory args ext ivf = .ok instances ∧
      (∀ p l, (p, l) ∈ instances → l = 0) ∧
      (∀ p : String, (p, 0) ∈ instances ↔
        ∃ e ∈ fs.walk directory, ∃ f ∈ e.2, p = pathJoin e.1 f ∧ valid p = true ∧
          (match args.fsids with
           | some ids => ids.contains (stem p) = true
           | none => True)) := by
  have hmk : make_nonclass_dataset fs directory args ext ivf =
      .ok ((sortBy entryLe (fs.walk directory)).flatMap fun e =>
        (sortBy strLe e.2).filterMap fun fname =>
          let path := pathJoin e.1 fname
          if valid path then
            match args.fsids with
            | some ids => if ids.contains (stem path) then some (path, 0) else none
            | none => some (path, 0)
          else none) := by
    unfold make_nonclass_dataset
    rw [hv]
    dsimp only
    rw [if_pos hdir]
  refine ⟨_, hmk, ?_, ?_⟩
  · intro p l hpl
    rcases List.mem_flatMap.mp hpl with ⟨e, _, hin⟩
    rcases List.mem_filterMap.mp hin with ⟨f, _, hsome⟩
    dsimp only at hsome
    by_cases hval : valid (pathJoin e.1 f) = true
    · rw [if_pos hval] at hsome
      cases hfs : args.fsids with
      | some ids =>
        rw [hfs] at hsome
        dsimp only at hsome
        by_cases hcon : ids.contains (stem (pathJoin e.1 f)) = true
        · rw [if_pos hcon] at hsome
          injection hsome with hsome
          exact (congrArg Prod.snd hsome).symm
        · rw [if_neg hcon] at hsome
          exact Option.noConfusion hsome
      | none =>
        rw [hfs] at hsome
        dsimp only at hsome
        injection hsome with hsome
        exact (congrArg Prod.snd hsome).symm
    · rw [if_neg hval] at hsome
      exact Option.noConfusion hsome
  · intro p
    constructor
    · intro hp
      rcases List.mem_flatMap.mp hp with ⟨e, he, hin⟩
      rcases List.mem_filterMap.mp hin with ⟨f, hf, hsome⟩
      dsimp only at hsome
      refine ⟨e, mem_sortBy.mp he, f, mem_sortBy.mp hf, ?_⟩
      by_cases hval : valid (pathJoin e.1 f) = true
      · rw [if_pos hval] at hsome
        cases hfs : args.fsids with
        | some ids =>
          rw [hfs] at hsome
          dsimp only at hsome
          by_cases hcon : ids.contains (stem (pathJoin e.1 f)) = true
          · rw [if_pos hcon] at hsome
            injection hsome with hsome
            have hpeq : pathJoin e.1 f = p := congrArg Prod.fst hsome
            rw [← hpeq]
            exact ⟨rfl, hval, hcon⟩
          · rw [if_neg hcon] at hsome
            exact Option.noConfusion hsome
        | none =>
          rw [hfs] at hsome
          dsimp only at hsome
          injection hsome with hsome
          have hpeq : pathJoin e.1 f = p := congrArg Prod.fst hsome
          rw [← hpeq]
          exact ⟨rfl, hval, trivial⟩
      · rw [if_neg hval] at hsome
        exact Option.noConfusion hsome
    · rintro ⟨e, he, f, hf, hpf, hval, hcond⟩
      apply List.mem_flatMap.mpr
      refine ⟨e, mem_sortBy.mpr he, ?_⟩
      apply List.mem_filterMap.mpr
      refine ⟨f, mem_sortBy.mpr hf, ?_⟩
      dsimp only
      rw [hpf] at hval
      rw [if_pos hval]
      cases hfs : args.fsids with
      | some ids =>
        rw [hfs] at hcond
        rw [hpf] at hcond
        dsimp only
        rw [if_pos hcond, hpf]
      | none =>
        dsimp only
        rw [hpf]

/-- A file system whose directory `D` holds the files `a.png` and
`b.png`. -/
def fs9 : FS :=
  ⟨fun _ => [], fun _ => true,
   fun d => if d = "D" then [("D", ["a.png", "b.png"])] else []⟩

/-- An `args` object restricting to the single stem `a`. -/
def args9 : Args := ⟨some ["a"], false, []⟩

/-- C9, witness: the theorem applied to `fs9` with `fsids = ["a"]`. -/
theorem claim9_nonclass_witness :
    ∃ instances,
      make_nonclass_dataset fs9 "D" args9 none (some fun _ => true) =
        .ok instances ∧
      (∀ p l, (p, l) ∈ instances → l = 0) ∧
      (∀ p : String, (p, 0) ∈ instances ↔
        ∃ e ∈ fs9.walk "D", ∃ f ∈ e.2, p = pathJoin e.1 f ∧
          (fun _ => true : String → Bool) p = true ∧
          (match args9.fsids with
           | some ids => ids.contains (stem p) = true
           | none => True)) :=
  claim9_nonclass fs9 "D" args9 none (some fun _ => true) (fun _ => true) rfl rfl

/-! ### Claim C10 -/

/-- A file system where task `a` has two files and task `b` one. -/
def fs10 : FS :=
  ⟨fun _ => [], fun _ => true,
   fun d =>
     if d = "r/a" then [("r/a", ["x.png", "y.png"])]
     else if d = "r/b" then [("r/b", ["z.png"])] else []⟩

/-- C10: `MultiTaskDatasetFolder.__len__` is the length of the first
task's sample list only; construction checks emptiness but never that the
task lists have equal lengths, so the reported length can exceed another
task's length (here 2 > 1). -/
theorem claim10_len :
    (∀ (fs : FS) (root : String) (t : String) (ts : List String) (args : Args)
      (ext : Option (List String)) (ivf : Option (String → Bool))
      (prefixes : List (String × String)) (perm : Nat → List Nat) (d : MTDataset),
      MultiTask.init fs root (t :: ts) args ext ivf prefixes none perm = .ok d →
      ∃ l, make_nonclass_dataset fs
          (pathJoin root (((prefixes.lookup t).getD "") ++ t)) args ext ivf =
          .ok l ∧
        mtLen d = l.length)
  ∧ (∃ d : MTDataset,
      MultiTask.init fs10 "r" ["a", "b"] args0 none (some fun _ => true) [] none
        (fun _ => []) = .ok d ∧
      mtLen d = 2 ∧ ((d.samples.lookup "b").getD []).length = 1) := by
  constructor
  · intro fs root t ts args ext ivf prefixes perm d h
    unfold MultiTask.init at h
    cases hbt : taskBuilder fs root args ext ivf prefixes t with
    | error e =>
      have hm : mapTasks (taskBuilder fs root args ext ivf prefixes) (t :: ts) =
          .error e := by
        rw [mapTasks, hbt]
      rw [hm] at h
      exact Except.noConfusion h
    | ok r =>
      cases hbts : mapTasks (taskBuilder fs root args ext ivf prefixes) ts with
      | error e =>
        have hm : mapTasks (taskBuilder fs root args ext ivf prefixes) (t :: ts) =
            .error e := by
          rw [mapTasks, hbt, hbts]
        rw [hm] at h
        exact Except.noConfusion h
      | ok rs =>
        have hm : mapTasks (taskBuilder fs root args ext ivf prefixes) (t :: ts) =
            .ok (r :: rs) := by
          rw [mapTasks, hbt, hbts]
        rw [hm] at h
        dsimp only at h
        split at h
        · exact Except.noConfusion h
        · injection h with h
          unfold taskBuilder at hbt
          cases hmk : make_nonclass_dataset fs
              (pathJoin root (((prefixes.lookup t).getD "") ++ t)) args ext ivf with
          | error e =>
            rw [hmk] at hbt
            exact Except.noConfusion hbt
          | ok l =>
            rw [hmk] at hbt
            injection hbt with hbt
            refine ⟨l, rfl, ?_⟩
            rw [← h, ← hbt]
            rfl
  · exact ⟨⟨["a", "b"],
      [("a", [("r/a/x.png", 0), ("r/a/y.png", 0)]), ("b", [("r/b/z.png", 0)])],
      ⟨[], []⟩⟩, rfl, rfl, rfl⟩

/-- C10, witness: the first part of the theorem applied to the concrete
two-task dataset over `fs10`. -/
theorem claim10_len_witness :
    ∃ l, make_nonclass_dataset fs10 (pathJoin "r" ("" ++ "a")) args0 none
        (some fun _ => true) = .ok l ∧
      mtLen ⟨["a", "b"],
        [("a", [("r/a/x.png", 0), ("r/a/y.png", 0)]), ("b", [("r/b/z.png", 0)])],
        ⟨[], []⟩⟩ = l.length := by
  obtain ⟨h1, _⟩ := claim10_len
  exact h1 fs10 "r" "a" ["b"] args0 none (some fun _ => true) [] (fun _ => [])
    ⟨["a", "b"],
      [("a", [("r/a/x.png", 0), ("r/a/y.png", 0)]), ("b", [("r/b/z.png", 0)])],
      ⟨[], []⟩⟩ rfl
